import Mathlib

/-!
Verification of the helm2cue template-to-CUE converter core
(`convert.go`, `core_funcs.go`) against its natural-language
specification.  The Go source is shallowly embedded: pure functions
become Lean functions over `String`/`List Char`, the emitter's mutable
`converter` struct becomes an explicit state record, and Go maps become
association lists.  External collaborators (the CUE YAML decoder
`yamlToCUE`, the CUE string encoder `escapeCUEString`) are parameters
of the functions that call them, mirroring their interface only.
-/

namespace Helm2Cue

/-- Character class check used by the source regex
`identRe = ^[a-zA-Z_$][a-zA-Z0-9_$]*$` (first character). -/
def isIdentStart (c : Char) : Bool :=
  ('a' ≤ c && c ≤ 'z') || ('A' ≤ c && c ≤ 'Z') || c = '_' || c = '$'

/-- Character class check for the remaining characters of `identRe`. -/
def isIdentRest (c : Char) : Bool :=
  isIdentStart c || ('0' ≤ c && c ≤ '9')

/-- Matching against the source regex `identRe`. -/
def identReMatch (s : String) : Bool :=
  match s.data with
  | [] => false
  | c :: cs => isIdentStart c && cs.all isIdentRest

/-- Escaping of one character as in Go `strconv.Quote`, modelled for the
printable-ASCII strings the converter quotes (the Go stdlib function is an
external collaborator; only its behaviour on these inputs matters). -/
def goQuoteChar (c : Char) : List Char :=
  if c = '"' then ['\\', '"']
  else if c = '\\' then ['\\', '\\']
  else if c = '\n' then ['\\', 'n']
  else if c = '\t' then ['\\', 't']
  else [c]

/-- Go `strconv.Quote`, modelled for printable-ASCII content. -/
def goQuote (s : String) : String :=
  ⟨'"' :: (s.data.flatMap goQuoteChar) ++ ['"']⟩

/-- Source `cueKey`: return the string verbatim when it matches `identRe`,
else its quoted form. -/
def cueKey (s : String) : String :=
  if identReMatch s then s else goQuote s

/-- Source `writeIndent`: one tab per level; a non-positive level writes
nothing (Go `for range level`). -/
def writeIndent (level : Int) : String :=
  ⟨List.replicate level.toNat '\t'⟩

/-- Source `helperToCUEName` keeps one character of the Helm template name:
letters (either case) and digits pass through, anything else becomes `_`. -/
def helperNameChar (ch : Char) : Char :=
  if ('a' ≤ ch && ch ≤ 'z') || ('A' ≤ ch && ch ≤ 'Z') || ('0' ≤ ch && ch ≤ '9')
  then ch else '_'

/-- Source `helperToCUEName`: builds `_` followed by the transformed name,
mirroring the `strings.Builder` loop over the runes of the name. -/
def helperToCUEName (name : String) : String :=
  ⟨name.data.foldl (fun acc ch => acc ++ [helperNameChar ch]) ['_']⟩

/-- Transformation the specification describes for helper names: keep only
lowercase letters and digits, replace everything else by `_` (written from
the spec sentence, for comparison with the source function). -/
def specHelperNameChar (ch : Char) : Char :=
  if ('a' ≤ ch && ch ≤ 'z') || ('0' ≤ ch && ch ≤ '9') then ch else '_'

/-- Helper name computation as the specification words it. -/
def specHelperToCUEName (name : String) : String :=
  ⟨'_' :: name.data.map specHelperNameChar⟩

/-- Source `inlineExpr`: wrap a CUE expression for string interpolation,
splicing the content of an expression that is already a quoted CUE string
literal (first and last byte `"`), and wrapping everything else as `\(…)`. -/
def inlineExpr (expr : String) : String :=
  if 2 ≤ expr.data.length ∧ expr.data.head? = some '"' ∧ expr.data.getLast? = some '"'
  then ⟨(expr.data.drop 1).dropLast⟩
  else "\\(" ++ expr ++ ")"

/-! ## Field tree (source `fieldNode`, `buildFieldTree`, `emitFieldNodes`) -/

/-- Field tree node, mirroring the source `fieldNode` struct.  The Go
struct carries both a `children` slice and a `childMap`; since the two are
kept consistent and names are unique among siblings, a single ordered list
suffices. -/
inductive FTree : Type where
  | mk (name : String) (children : List FTree) (defVal : String)
      (required : Bool) (isRange : Bool)

def FTree.name : FTree → String
  | .mk n _ _ _ _ => n

def FTree.children : FTree → List FTree
  | .mk _ cs _ _ _ => cs

def FTree.defVal : FTree → String
  | .mk _ _ d _ _ => d

def FTree.required : FTree → Bool
  | .mk _ _ _ r _ => r

def FTree.isRange : FTree → Bool
  | .mk _ _ _ _ g => g

/-- Update the first child named `e` with `f`, appending `leaf` at the end
when no child has that name.  This is the Go pattern
`child, ok := node.childMap[elem]; if !ok … append` — sibling names are
unique, so updating the first match coincides with the map update. -/
def updateNamed (e : String) (f : FTree → FTree) (leaf : FTree) :
    List FTree → List FTree
  | [] => [leaf]
  | c :: cs => if c.name = e then f c :: cs else c :: updateNamed e f leaf cs

/-- Walk-and-create insertion of a reference path, as in the first loop of
the source `buildFieldTree` (`for _, ref := range refs`). -/
def insertPath : List String → FTree → FTree
  | [], t => t
  | e :: rest, .mk n cs d r g =>
      .mk n (updateNamed e (insertPath rest)
        (insertPath rest (.mk e [] "" false false)) cs) d r g

/-- Walk-and-create insertion of a default, setting `defVal` at the path's
endpoint, as in the second loop of the source `buildFieldTree`
(`for _, d := range defs … node.defVal = d.cueValue`). -/
def setDefaultPath (v : String) : List String → FTree → FTree
  | [], .mk n cs _ r g => .mk n cs v r g
  | e :: rest, .mk n cs d r g =>
      .mk n (updateNamed e (setDefaultPath v rest)
        (setDefaultPath v rest (.mk e [] "" false false)) cs) d r g

/-- Mark walk below the root: descend while the next path element exists;
where the walk stops (path exhausted or child missing) set `required`.
This is the body of the source loop `for _, ref := range requiredRefs`
once at least one step from the root has been taken. -/
def markStopReq : List String → FTree → FTree
  | [], .mk n cs d _ g => .mk n cs d true g
  | e :: rest, .mk n cs d r g =>
      if cs.any (fun c => c.name = e)
      then .mk n (updateNamed e (markStopReq rest) (.mk e [] "" false false) cs) d r g
      else .mk n cs d true g

/-- Source `buildFieldTree` required-marking loop at the root: the root
node itself is never marked (`if node != root`), so a walk that cannot
take its first step marks nothing. -/
def markRequired : List String → FTree → FTree
  | [], t => t
  | e :: rest, .mk n cs d r g =>
      if cs.any (fun c => c.name = e)
      then .mk n (updateNamed e (markStopReq rest) (.mk e [] "" false false) cs) d r g
      else .mk n cs d r g

/-- Mark walk below the root for `isRange`, mirroring `markStopReq`. -/
def markStopRange : List String → FTree → FTree
  | [], .mk n cs d r _ => .mk n cs d r true
  | e :: rest, .mk n cs d r g =>
      if cs.any (fun c => c.name = e)
      then .mk n (updateNamed e (markStopRange rest) (.mk e [] "" false false) cs) d r g
      else .mk n cs d r true

/-- Source `buildFieldTree` range-marking loop at the root. -/
def markRange : List String → FTree → FTree
  | [], t => t
  | e :: rest, .mk n cs d r g =>
      if cs.any (fun c => c.name = e)
      then .mk n (updateNamed e (markStopRange rest) (.mk e [] "" false false) cs) d r g
      else .mk n cs d r g

/-- Empty root node, as allocated at the top of the source
`buildFieldTree`. -/
def emptyRoot : FTree := .mk "" [] "" false false

/-- Source `buildFieldTree`: four passes building the trie from
references, defaults, required marks and range marks in that order. -/
def buildFieldTree (refs : List (List String))
    (defs : List (List String × String))
    (requiredRefs : List (List String))
    (rangeRefs : List (List String)) : FTree :=
  let t0 := refs.foldl (fun t r => insertPath r t) emptyRoot
  let t1 := defs.foldl (fun t d => setDefaultPath d.2 d.1 t) t0
  let t2 := requiredRefs.foldl (fun t r => markRequired r t) t1
  rangeRefs.foldl (fun t r => markRange r t) t2

/-- Node lookup along a path (reading counterpart of the insertion walk). -/
def getNode? : List String → FTree → Option FTree
  | [], t => some t
  | e :: rest, .mk _ cs _ _ _ =>
      match cs.find? (fun c => c.name = e) with
      | some c => getNode? rest c
      | none => none

/-- Presence of a path in the field tree. -/
def hasPath (p : List String) (t : FTree) : Bool :=
  (getNode? p t).isSome

/-- The `required` flag of the node at a path (false when absent). -/
def requiredAt (p : List String) (t : FTree) : Bool :=
  match getNode? p t with
  | some u => u.required
  | none => false

/-- The `isRange` flag of the node at a path (false when absent). -/
def rangeAt (p : List String) (t : FTree) : Bool :=
  match getNode? p t with
  | some u => u.isRange
  | none => false

/-- The `defVal` of the node at a path (empty when absent, matching the
zero value in the Go struct). -/
def defValAt (p : List String) (t : FTree) : String :=
  match getNode? p t with
  | some u => u.defVal
  | none => ""

/-- Scalar leaf type constant from the source (`cueScalarType`). -/
def cueScalarType : String := "bool | number | string | null"

mutual

/-- Source `emitFieldNodes` body for a single node: interior nodes emit an
optional/required struct (or list-of-struct when range-marked), leaves
with a default emit `name: *default | type`, remaining leaves emit
`name?: type` / `name!: type`. -/
def emitFieldNode (t : FTree) (indent : Nat) : String :=
  match t with
  | .mk n cs d r g =>
      if cs.length > 0 then
        let marker := if r then "!" else "?"
        let opener := if g then cueKey n ++ marker ++ ": [...\x7b\n"
          else cueKey n ++ marker ++ ": \x7b\n"
        let closer := if g then "\x7d]\n" else "\x7d\n"
        writeIndent indent ++ opener ++
          emitFieldNodesGo cs (indent + 1) ++
          writeIndent (indent + 1) ++ "...\n" ++
          writeIndent indent ++ closer
      else if d ≠ "" then
        let leafType := if g then "_" else cueScalarType
        writeIndent indent ++ cueKey n ++ ": *" ++ d ++ " | " ++ leafType ++ "\n"
      else
        let marker := if r then "!" else "?"
        let leafType := if g then "_" else cueScalarType
        writeIndent indent ++ cueKey n ++ marker ++ ": " ++ leafType ++ "\n"

/-- Source `emitFieldNodes` loop over a node list. -/
def emitFieldNodesGo (ts : List FTree) (indent : Nat) : String :=
  match ts with
  | [] => ""
  | t :: rest => emitFieldNode t indent ++ emitFieldNodesGo rest indent

end

/-! ## Emitter state (source `converter` emission fields, `frame`,
`pendingResolution`, and the text/action emission functions) -/

/-- Space characters trimmed by Go `strings.TrimSpace` (ASCII subset; the
converter only ever sees ASCII whitespace in YAML lines). -/
def isSpaceChar (c : Char) : Bool :=
  c = ' ' || c = '\t' || c = '\n' || c = '\r' || c = '\x0b' || c = '\x0c'

/-- Go `strings.TrimSpace` on a character list. -/
def trimSpaceList (cs : List Char) : List Char :=
  ((cs.dropWhile isSpaceChar).reverse.dropWhile isSpaceChar).reverse

/-- Go `strings.TrimSpace`. -/
def trimSpace (s : String) : String :=
  ⟨trimSpaceList s.data⟩

/-- Go `strings.TrimRight(s, " \t")` style trimming on character lists. -/
def trimRightList (cs : List Char) (cutset : List Char) : List Char :=
  (cs.reverse.dropWhile (fun c => cutset.contains c)).reverse

/-- Count of leading spaces, the source's
`len(rawLine) - len(strings.TrimLeft(rawLine, " "))`. -/
def countLeadingSpaces (cs : List Char) : Nat :=
  (cs.takeWhile (fun c => c = ' ')).length

/-- Go `strings.HasPrefix` on character lists. -/
def listStartsWith : List Char → List Char → Bool
  | _, [] => true
  | [], _ :: _ => false
  | c :: cs, p :: ps => c = p && listStartsWith cs ps

/-- Index of the first occurrence of `": "`, the source's
`strings.Index(content, ": ")`. -/
def indexOfColonSpace : List Char → Option Nat
  | [] => none
  | ':' :: ' ' :: _ => some 0
  | _ :: rest => (indexOfColonSpace rest).map (· + 1)

/-- Go `strings.Split(s, "\n")` on a character list. -/
def splitLines : List Char → List (List Char)
  | [] => [[]]
  | '\n' :: rest => [] :: splitLines rest
  | c :: rest =>
      match splitLines rest with
      | l :: ls => (c :: l) :: ls
      | [] => [[c]]

/-- Go `strings.Replace(s, pat, new, 1)`: replace the first occurrence. -/
def replaceFirstList (pat new : List Char) : List Char → List Char
  | [] => if pat = [] then new else []
  | c :: cs =>
      if pat = [] then new ++ c :: cs
      else if listStartsWith (c :: cs) pat then new ++ (c :: cs).drop pat.length
      else c :: replaceFirstList pat new cs

/-- The `frame` struct from the source: one open YAML block. -/
structure Frame where
  yamlIndent : Int
  cueIndent : Int
  isList : Bool
  isListItem : Bool
deriving Repr, DecidableEq

/-- The `emitState` enum from the source. -/
inductive EmitState : Type where
  | normal
  | pendingKey
deriving Repr, DecidableEq

/-- The `pendingResolution` struct from the source. -/
structure PendingResolution where
  key : String
  value : String
  comment : String
  indent : Int
  cueInd : Int
  rawKey : Bool
deriving Repr, DecidableEq

/-- Emission fields of the source `converter` struct.  The Go frame stack
is a slice whose last element is the top; here the HEAD of `stack` is the
top, so Go `append` becomes cons. -/
structure EmitterState where
  out : String
  stack : List Frame
  state : EmitState
  pendingKey : String
  pendingKeyInd : Int
  deferredKV : Option PendingResolution
  inRangeBody : Bool
  pendingActionExpr : String
  pendingActionComment : String
  pendingActionCUEInd : Int
  nextActionYamlIndent : Int
  inlineParts : Option (List String)
  inlineSuffix : String
  nextNodeIsInline : Bool
  flowParts : Option (List String)
  flowExprs : List String
  flowDepth : Int
  flowCueInd : Int
  flowSuffix : String
deriving Repr, DecidableEq

/-- Zero-valued emitter state, as in a freshly allocated `converter`. -/
def initEmitter : EmitterState where
  out := ""
  stack := []
  state := .normal
  pendingKey := ""
  pendingKeyInd := 0
  deferredKV := none
  inRangeBody := false
  pendingActionExpr := ""
  pendingActionComment := ""
  pendingActionCUEInd := 0
  nextActionYamlIndent := 0
  inlineParts := none
  inlineSuffix := ""
  nextNodeIsInline := false
  flowParts := none
  flowExprs := []
  flowDepth := 0
  flowCueInd := 0
  flowSuffix := ""

/-- External collaborators of the emitter: `yamlToCUE` (backed by the CUE
YAML decoder and formatter) and `escapeCUEString` (backed by the CUE
string encoder).  Both are out-of-scope library calls, so the emitter is
parameterised over them. -/
structure ExtFns where
  y2c : String → Int → String
  esc : String → String

/-- Source `currentCUEIndent`. -/
def currentCUEIndent (st : EmitterState) : Int :=
  match st.stack with
  | [] => 0
  | top :: _ => top.cueIndent

/-- Text emitted when a single frame closes (body of `closeOneFrame`):
`]`, `},` or `}` at `cueIndent-1` (clamped at zero). -/
def closeFrameText (f : Frame) : String :=
  let closeIndent := if f.cueIndent - 1 < 0 then 0 else f.cueIndent - 1
  writeIndent closeIndent ++
    (if f.isList then "]\n" else if f.isListItem then "\x7d,\n" else "\x7d\n")

/-- Source `closeOneFrame`: pop the top frame and emit its close. -/
def closeOneFrame (st : EmitterState) : EmitterState :=
  match st.stack with
  | [] => st
  | top :: rest => { st with stack := rest, out := st.out ++ closeFrameText top }

/-- Loop body of `closeBlocksTo` over the frame stack: close frames from
the top while `indent` is negative or the top's `yamlIndent` exceeds it. -/
def closeStack (indent : Int) : List Frame → String → List Frame × String
  | [], out => ([], out)
  | top :: rest, out =>
      if 0 ≤ indent ∧ top.yamlIndent ≤ indent then (top :: rest, out)
      else closeStack indent rest (out ++ closeFrameText top)

/-- Source `closeBlocksTo`: close all stack frames whose `yamlIndent`
exceeds `indent`; `-1` closes all frames. -/
def closeBlocksTo (indent : Int) (st : EmitterState) : EmitterState :=
  let r := closeStack indent st.stack st.out
  { st with stack := r.1, out := r.2 }

/-- Source `flushPendingAction`. -/
def flushPendingAction (st : EmitterState) : EmitterState :=
  if st.pendingActionExpr = "" then st
  else
    { st with
      pendingActionExpr := ""
      pendingActionComment := ""
      out := st.out ++ writeIndent st.pendingActionCUEInd ++ st.pendingActionExpr ++
        (if st.pendingActionComment ≠ "" then " " ++ st.pendingActionComment else "") ++ "\n" }

/-- Source `flushDeferred`. -/
def flushDeferred (st : EmitterState) : EmitterState :=
  match st.deferredKV with
  | none => st
  | some d =>
      let key := if d.rawKey then d.key else cueKey d.key
      { st with
        deferredKV := none
        out := st.out ++ writeIndent d.cueInd ++ key ++ ": " ++ d.value ++
          (if d.comment ≠ "" then " " ++ d.comment else "") ++ "\n" }

/-- Source `finalizeInline`. -/
def finalizeInline (st : EmitterState) : EmitterState :=
  match st.inlineParts with
  | none => st
  | some ps =>
      { st with
        inlineParts := none
        inlineSuffix := ""
        out := st.out ++ "\"" ++ String.join ps ++ "\"" ++ st.inlineSuffix ++ "\n" }

/-- Source `isFlowCollection`. -/
def isFlowCollection (s : String) : Bool :=
  let t := trimSpaceList s.data
  (t.length > 2 && t.head? = some '{' && t.getLast? = some '}') ||
  (t.length > 2 && t.head? = some '[' && t.getLast? = some ']')

/-- Source `startsIncompleteFlow`. -/
def startsIncompleteFlow (s : String) : Bool :=
  let t := trimSpaceList s.data
  match t with
  | [] => false
  | c :: _ => (c = '{' || c = '[') && !isFlowCollection (⟨t⟩ : String)

/-- Loop of the source `flowBracketDepth`: scan characters tracking flow
bracket depth, skipping single- and double-quoted strings; returns the
byte position just after depth first reaches zero, or `-1`. -/
def flowBracketDepthGo : List Char → Int → Nat → Bool → Bool → Int × Int
  | [], depth, _, _, _ => (-1, depth)
  | ch :: rest, depth, pos, true, inDouble =>
      flowBracketDepthGo rest depth (pos + 1) (ch ≠ '\'') inDouble
  | ch :: rest, depth, pos, false, true =>
      if ch = '\\' then
        match rest with
        | _ :: rest2 => flowBracketDepthGo rest2 depth (pos + 2) false true
        | [] => flowBracketDepthGo [] depth (pos + 1) false true
      else if ch = '"' then flowBracketDepthGo rest depth (pos + 1) false false
      else flowBracketDepthGo rest depth (pos + 1) false true
  | ch :: rest, depth, pos, false, false =>
      if ch = '\'' then flowBracketDepthGo rest depth (pos + 1) true false
      else if ch = '"' then flowBracketDepthGo rest depth (pos + 1) false true
      else if ch = '{' ∨ ch = '[' then
        flowBracketDepthGo rest (depth + 1) (pos + 1) false false
      else if ch = '}' ∨ ch = ']' then
        if depth - 1 = 0 then ((pos + 1 : Nat), 0)
        else flowBracketDepthGo rest (depth - 1) (pos + 1) false false
      else flowBracketDepthGo rest depth (pos + 1) false false

/-- Source `flowBracketDepth`. -/
def flowBracketDepth (s : String) (depth : Int) : Int × Int :=
  flowBracketDepthGo s.data depth 0 false false

/-- Source `startFlowAccum`. -/
def startFlowAccum (text : String) (cueInd : Int) (suffix : String)
    (st : EmitterState) : EmitterState :=
  { st with
    flowParts := some [text]
    flowExprs := []
    flowDepth := (flowBracketDepth text 0).2
    flowCueInd := cueInd
    flowSuffix := suffix }

/-- Sentinel token for the i-th action inside a flow collection. -/
def flowSentinel (i : Nat) : String :=
  "__h2c_" ++ toString i ++ "__"

/-- Sentinel substitution loop of `finalizeFlow`: replace the first
occurrence of each quoted sentinel by its CUE expression. -/
def substSentinels (exprs : List String) (i : Nat) (s : List Char) : List Char :=
  match exprs with
  | [] => s
  | e :: rest =>
      substSentinels rest (i + 1)
        (replaceFirstList (goQuote (flowSentinel i)).data e.data s)

/-- Source `finalizeFlow`. -/
def finalizeFlow (E : ExtFns) (st : EmitterState) : EmitterState :=
  match st.flowParts with
  | none => st
  | some ps =>
      let joined := String.join ps
      let cueStr := (E.y2c joined st.flowCueInd).data
      let cueStr := substSentinels st.flowExprs 0 cueStr
      { st with
        flowParts := none
        flowExprs := []
        flowDepth := 0
        out := st.out ++ writeIndent st.flowCueInd ++ (⟨cueStr⟩ : String) ++ st.flowSuffix }

/-- Source `resolveDeferredAsBlock`. -/
def resolveDeferredAsBlock (childYamlIndent : Int) (st : EmitterState) : EmitterState :=
  match st.deferredKV with
  | none => st
  | some d =>
      let key := if d.rawKey then d.key else cueKey d.key
      { st with
        deferredKV := none
        out := st.out ++ writeIndent d.cueInd ++ key ++ ": \x7b\n" ++
          writeIndent (d.cueInd + 1) ++ d.value ++ "\n"
        stack := ⟨childYamlIndent, d.cueInd + 1, false, false⟩ :: st.stack }

/-- Source `openPendingAsList`. -/
def openPendingAsList (childYamlIndent : Int) (st : EmitterState) : EmitterState :=
  let cueInd := currentCUEIndent st
  { st with
    out := st.out ++ writeIndent cueInd ++ cueKey st.pendingKey ++ ": [\n"
    stack := ⟨childYamlIndent, cueInd + 1, true, false⟩ :: st.stack
    state := .normal
    pendingKey := "" }

/-- Source `openPendingAsMapping`. -/
def openPendingAsMapping (childYamlIndent : Int) (st : EmitterState) : EmitterState :=
  let cueInd := currentCUEIndent st
  { st with
    out := st.out ++ writeIndent cueInd ++ cueKey st.pendingKey ++ ": \x7b\n"
    stack := ⟨childYamlIndent, cueInd + 1, false, false⟩ :: st.stack
    state := .normal
    pendingKey := "" }

/-- Source `emitActionExpr`: route an action's CUE expression into flow
accumulation, inline accumulation, a pending list item, a deferred
key-value, or a deferred standalone action. -/
def emitActionExpr (st : EmitterState) (expr comment : String) : EmitterState :=
  match st.flowParts with
  | some ps =>
      { st with
        flowParts := some (ps ++ [flowSentinel st.flowExprs.length])
        flowExprs := st.flowExprs ++ [expr] }
  | none =>
  match st.inlineParts with
  | some ps => { st with inlineParts := some (ps ++ [inlineExpr expr]) }
  | none =>
  let st1 := flushDeferred (flushPendingAction st)
  if st1.state = .pendingKey then
    if st1.pendingKey = "" then
      { st1 with
        out := st1.out ++ writeIndent (currentCUEIndent st1) ++ expr ++
          (if comment ≠ "" then " " ++ comment else "") ++ "\n"
        state := .normal }
    else
      { st1 with
        deferredKV := some
          { key := st1.pendingKey
            value := expr
            comment := comment
            indent := st1.pendingKeyInd
            cueInd := currentCUEIndent st1
            rawKey := listStartsWith st1.pendingKey.data ['('] }
        state := .normal
        pendingKey := "" }
  else
    { st1 with
      pendingActionExpr := expr
      pendingActionComment := comment
      pendingActionCUEInd := currentCUEIndent st1 }

/-! ## Text node processing (source `emitTextNode`, `processListItem`,
`processRangeListItem`) -/

/-- Key-value tail of the source `processRangeListItem` (the branch chain
after the `": "` index is found at a positive offset). -/
def rangeListItemKV (E : ExtFns) (st : EmitterState) (content : List Char)
    (colonIdx : Nat) (yamlIndent cueInd : Int)
    (isLastLine continuesInline : Bool) : EmitterState :=
  let key : List Char := content.take colonIdx
  let rawVal : List Char := content.drop (colonIdx + 2)
  let val := trimRightList rawVal [' ', '\t']
  let itemContentIndent := yamlIndent + 2
  if val = [] ∧ isLastLine then
    { st with
      state := .pendingKey
      pendingKey := ⟨key⟩
      pendingKeyInd := itemContentIndent }
  else if continuesInline ∧ val ≠ [] ∧ startsIncompleteFlow ⟨val⟩ then
    startFlowAccum ⟨rawVal⟩ cueInd "\n"
      { st with out := st.out ++ writeIndent cueInd ++ cueKey ⟨key⟩ ++ ": " }
  else
    { st with out := st.out ++ writeIndent cueInd ++ cueKey ⟨key⟩ ++ ": " ++
        (E.y2c ⟨val⟩ cueInd) ++ "\n" }

/-- Final branches of the source `processRangeListItem` (bare key, empty
item, inline continuation, simple scalar emitted raw). -/
def rangeListItemTail (E : ExtFns) (st : EmitterState) (content : List Char)
    (yamlIndent cueInd : Int) (isLastLine continuesInline : Bool) : EmitterState :=
  let trimmed := trimSpaceList content
  if trimmed.getLast? = some ':' then
    { st with
      state := .pendingKey
      pendingKey := ⟨trimmed.dropLast⟩
      pendingKeyInd := yamlIndent + 2 }
  else if trimRightList content [' ', '\t'] = [] ∧ isLastLine then
    { st with
      state := .pendingKey
      pendingKey := ""
      pendingKeyInd := yamlIndent }
  else if continuesInline then
    { st with
      out := st.out ++ writeIndent cueInd
      inlineParts := some [E.esc ⟨trimmed⟩] }
  else
    { st with out := st.out ++ writeIndent cueInd ++ (⟨trimmed⟩ : String) ++ "\n" }

/-- Source `processRangeListItem`: list items inside a range body emit
directly without struct wrapping. -/
def processRangeListItem (E : ExtFns) (st : EmitterState) (content : List Char)
    (yamlIndent cueInd : Int) (isLastLine continuesInline : Bool) : EmitterState :=
  if isFlowCollection ⟨content⟩ then
    { st with out := st.out ++ writeIndent cueInd ++ E.y2c ⟨content⟩ cueInd ++ "\n" }
  else if continuesInline ∧ startsIncompleteFlow ⟨content⟩ then
    startFlowAccum ⟨content⟩ cueInd "\n" { st with out := st.out ++ writeIndent cueInd }
  else
    match indexOfColonSpace content with
    | some colonIdx =>
        if colonIdx > 0 then
          rangeListItemKV E st content colonIdx yamlIndent cueInd isLastLine continuesInline
        else rangeListItemTail E st content yamlIndent cueInd isLastLine continuesInline
    | none => rangeListItemTail E st content yamlIndent cueInd isLastLine continuesInline

/-- Key-value branch of the source `processListItem` (`- key: value`
opens a list-item struct frame). -/
def listItemKV (E : ExtFns) (st : EmitterState) (content : List Char)
    (colonIdx : Nat) (yamlIndent cueInd : Int)
    (isLastLine continuesInline : Bool) : EmitterState :=
  let key : List Char := content.take colonIdx
  let rawVal : List Char := content.drop (colonIdx + 2)
  let val := trimRightList rawVal [' ', '\t']
  let itemContentIndent := yamlIndent + 2
  let itemFrame : Frame := ⟨itemContentIndent, cueInd + 1, false, true⟩
  if val = [] ∧ isLastLine then
    { st with
      out := st.out ++ writeIndent cueInd ++ "\x7b\n"
      stack := itemFrame :: st.stack
      state := .pendingKey
      pendingKey := ⟨key⟩
      pendingKeyInd := itemContentIndent }
  else if continuesInline ∧ val ≠ [] ∧ startsIncompleteFlow ⟨val⟩ then
    let st1 := startFlowAccum ⟨rawVal⟩ (cueInd + 1) "\n"
      { st with out := st.out ++ writeIndent cueInd ++ "\x7b\n" ++
          writeIndent (cueInd + 1) ++ cueKey ⟨key⟩ ++ ": " }
    { st1 with stack := itemFrame :: st1.stack }
  else
    { st with
      out := st.out ++ writeIndent cueInd ++ "\x7b\n" ++
        writeIndent (cueInd + 1) ++ cueKey ⟨key⟩ ++ ": " ++ E.y2c ⟨val⟩ (cueInd + 1) ++ "\n"
      stack := itemFrame :: st.stack }

/-- Final branches of the source `processListItem` (bare `- key:`, empty
`- `, inline scalar, simple scalar). -/
def listItemTail (E : ExtFns) (st : EmitterState) (content : List Char)
    (yamlIndent cueInd : Int) (isLastLine continuesInline : Bool) : EmitterState :=
  let trimmed := trimSpaceList content
  if trimmed.getLast? = some ':' then
    { st with
      out := st.out ++ writeIndent cueInd ++ "\x7b\n"
      stack := (⟨yamlIndent + 2, cueInd + 1, false, true⟩ : Frame) :: st.stack
      state := .pendingKey
      pendingKey := ⟨trimmed.dropLast⟩
      pendingKeyInd := yamlIndent + 2 }
  else if trimRightList content [' ', '\t'] = [] ∧ isLastLine then
    { st with
      state := .pendingKey
      pendingKey := ""
      pendingKeyInd := yamlIndent }
  else if continuesInline then
    { st with
      out := st.out ++ writeIndent cueInd
      inlineParts := some [E.esc ⟨trimmed⟩]
      inlineSuffix := "," }
  else
    { st with out := st.out ++ writeIndent cueInd ++ E.y2c ⟨trimmed⟩ 0 ++ ",\n" }

/-- Source `processListItem` (line starting `"- "`). -/
def processListItem (E : ExtFns) (st : EmitterState) (trimmedParam : List Char)
    (yamlIndent cueInd : Int) (isLastLine continuesInline : Bool) : EmitterState :=
  let content := if listStartsWith trimmedParam ['-', ' ']
    then trimmedParam.drop 2 else trimmedParam
  if st.inRangeBody then
    processRangeListItem E st content yamlIndent cueInd isLastLine continuesInline
  else if isFlowCollection ⟨content⟩ then
    { st with out := st.out ++ writeIndent cueInd ++ E.y2c ⟨content⟩ cueInd ++ ",\n" }
  else if continuesInline ∧ startsIncompleteFlow ⟨content⟩ then
    startFlowAccum ⟨content⟩ cueInd ",\n" { st with out := st.out ++ writeIndent cueInd }
  else
    match indexOfColonSpace content with
    | some colonIdx =>
        if colonIdx > 0 then
          listItemKV E st content colonIdx yamlIndent cueInd isLastLine continuesInline
        else listItemTail E st content yamlIndent cueInd isLastLine continuesInline
    | none => listItemTail E st content yamlIndent cueInd isLastLine continuesInline

/-- Dynamic-key resolution at the start of a line (source `emitTextNode`,
the `pendingActionExpr` branch when the line starts with `": "` or is
`":"`). -/
def processDynamicKey (E : ExtFns) (st : EmitterState) (content : List Char) :
    EmitterState :=
  let st1 := { st with
    state := EmitState.pendingKey
    pendingKey := "(" ++ st.pendingActionExpr ++ ")"
    pendingKeyInd := st.nextActionYamlIndent
    pendingActionExpr := ""
    pendingActionComment := "" }
  if content = [':'] then st1
  else
    let val := trimRightList (content.drop 2) [' ', '\t']
    if val = [] then st1
    else
      { st1 with
        out := st1.out ++ writeIndent (currentCUEIndent st1) ++ st1.pendingKey ++
          ": " ++ E.y2c ⟨val⟩ 0 ++ "\n"
        state := .normal
        pendingKey := "" }

/-- Key-value branch of the per-line classification in `emitTextNode`
(the `colonIdx > 0` arm). -/
def keyValueBranch (E : ExtFns) (st : EmitterState) (content : List Char)
    (colonIdx : Nat) (yamlIndent cueInd : Int)
    (isLastLine continuesInline : Bool) : EmitterState :=
  let key : List Char := content.take colonIdx
  let rawVal : List Char := content.drop (colonIdx + 2)
  let val := trimRightList rawVal [' ', '\t']
  if val = ['|', '-'] ∨ val = ['|'] ∨ val = ['>', '-'] ∨ val = ['>'] then
    { st with
      state := .pendingKey
      pendingKey := ⟨key⟩
      pendingKeyInd := yamlIndent }
  else if val = [] ∧ isLastLine then
    { st with
      state := .pendingKey
      pendingKey := ⟨key⟩
      pendingKeyInd := yamlIndent }
  else if continuesInline ∧ val ≠ [] ∧ startsIncompleteFlow ⟨val⟩ then
    startFlowAccum ⟨rawVal⟩ cueInd "\n"
      { st with out := st.out ++ writeIndent cueInd ++ cueKey ⟨key⟩ ++ ": " }
  else if continuesInline ∧ val ≠ [] then
    { st with
      out := st.out ++ writeIndent cueInd ++ cueKey ⟨key⟩ ++ ": "
      inlineParts := some [E.esc ⟨val⟩] }
  else
    { st with out := st.out ++ writeIndent cueInd ++ cueKey ⟨key⟩ ++ ": " ++
        (E.y2c ⟨val⟩ cueInd) ++ "\n" }

/-- Trailing branches of the per-line classification (`key:` suffix,
inline continuation, bare value). -/
def classifyTail (E : ExtFns) (st : EmitterState) (trimmed : List Char)
    (yamlIndent cueInd : Int) (continuesInline : Bool) : EmitterState :=
  if trimmed.getLast? = some ':' then
    { st with
      state := .pendingKey
      pendingKey := ⟨trimmed.dropLast⟩
      pendingKeyInd := yamlIndent }
  else if continuesInline then
    { st with
      out := st.out ++ writeIndent cueInd
      inlineParts := some [E.esc ⟨trimmed⟩] }
  else
    { st with out := st.out ++ writeIndent cueInd ++ E.y2c ⟨trimmed⟩ 0 ++ "\n" }

/-- Line classification of the source `emitTextNode` (comment, list item,
flow collection, incomplete flow, key-value, trailing key, bare value). -/
def classifyLine (E : ExtFns) (st : EmitterState) (content trimmed : List Char)
    (yamlIndent cueInd : Int) (isLastLine continuesInline : Bool) : EmitterState :=
  if listStartsWith trimmed ['#'] then
    let ct0 := trimmed.drop 1
    let ct := if listStartsWith ct0 [' '] then ct0.drop 1 else ct0
    { st with out := st.out ++ writeIndent cueInd ++
        (if ct = [] then "//\n" else "// " ++ (⟨ct⟩ : String) ++ "\n") }
  else if listStartsWith content ['-', ' '] then
    processListItem E st content yamlIndent cueInd isLastLine continuesInline
  else if isFlowCollection ⟨trimmed⟩ then
    { st with out := st.out ++ writeIndent cueInd ++ E.y2c ⟨trimmed⟩ cueInd ++ "\n" }
  else if continuesInline ∧ startsIncompleteFlow ⟨trimmed⟩ then
    startFlowAccum ⟨content⟩ cueInd "\n" { st with out := st.out ++ writeIndent cueInd }
  else
    match indexOfColonSpace content with
    | some colonIdx =>
        if colonIdx > 0 then
          keyValueBranch E st content colonIdx yamlIndent cueInd isLastLine continuesInline
        else classifyTail E st trimmed yamlIndent cueInd continuesInline
    | none => classifyTail E st trimmed yamlIndent cueInd continuesInline

/-- One iteration of the line loop in the source `emitTextNode`: skip
blank lines (recording the indent hint on a trailing whitespace-only
line), resolve a pending action as a dynamic key, flush or promote the
deferred key-value, close frames deeper than the line, close a finished
sequence at the same indent, resolve a pending key, then classify. -/
def processLine (E : ExtFns) (st : EmitterState) (rawLine : List Char)
    (isLastLine tci : Bool) : EmitterState :=
  if trimSpaceList rawLine = [] then
    if isLastLine ∧ rawLine ≠ [] then
      { st with nextActionYamlIndent := (countLeadingSpaces rawLine : Int) }
    else st
  else
    let yamlIndent : Int := (countLeadingSpaces rawLine : Int)
    let content : List Char := rawLine.drop (countLeadingSpaces rawLine)
    if st.pendingActionExpr ≠ "" ∧ (listStartsWith content [':', ' '] ∨ content = [':'])
    then processDynamicKey E st content
    else
      let stA := if st.pendingActionExpr ≠ "" then flushPendingAction st else st
      let stB := match stA.deferredKV with
        | some d =>
            if yamlIndent > d.indent then resolveDeferredAsBlock yamlIndent stA
            else flushDeferred stA
        | none => stA
      let stC := closeBlocksTo yamlIndent stB
      let stD := match stC.stack with
        | top :: _ =>
            if top.isList ∧ top.yamlIndent = yamlIndent ∧
              ¬ listStartsWith content ['-', ' ']
            then closeOneFrame stC else stC
        | [] => stC
      let stE := if stD.state = .pendingKey then
          if listStartsWith content ['-', ' '] then openPendingAsList yamlIndent stD
          else openPendingAsMapping yamlIndent stD
        else stD
      classifyLine E stE content (trimSpaceList content) yamlIndent
        (currentCUEIndent stE) isLastLine (isLastLine ∧ tci)

/-- The `for i, rawLine := range lines` loop of the source `emitTextNode`. -/
def processLines (E : ExtFns) (tci : Bool) : EmitterState → List (List Char) → EmitterState
  | st, [] => st
  | st, [line] => processLine E st line true tci
  | st, line :: line2 :: rest =>
      processLines E tci (processLine E st line false tci) (line2 :: rest)

/-- Line-loop entry of the source `emitTextNode`, after the inline and
flow continuations have been handled: compute whether the last line
continues inline into the next AST node and walk the lines. -/
def emitTextNodeLines (E : ExtFns) (st : EmitterState) (s : List Char) : EmitterState :=
  let tci := s ≠ [] ∧ s.getLast? ≠ some '\n' ∧ st.nextNodeIsInline
  processLines E tci st (splitLines s)

/-- Position bound for `flowBracketDepthGo`: a non-negative end position
is strictly past the starting position. -/
theorem flowBracketDepthGo_pos :
    ∀ (n : Nat) (cs : List Char), cs.length ≤ n → ∀ (d : Int) (pos : Nat) (a b : Bool),
      0 ≤ (flowBracketDepthGo cs d pos a b).1 →
      (pos : Int) < (flowBracketDepthGo cs d pos a b).1 := by
  intro n
  induction n with
  | zero =>
      intro cs hcs d pos a b h
      match cs with
      | [] =>
          rw [flowBracketDepthGo.eq_def] at h
          simp only [] at h
          omega
  | succ n ih =>
      intro cs hcs d pos a b h
      match cs with
      | [] =>
          rw [flowBracketDepthGo.eq_def] at h
          simp only [] at h
          omega
      | ch :: rest =>
          have hrest : rest.length ≤ n := by
            simp only [List.length_cons] at hcs
            omega
          cases a with
          | true =>
              rw [flowBracketDepthGo.eq_def] at h ⊢
              simp only [] at h ⊢
              have h2 := ih rest hrest d (pos + 1) _ b h
              omega
          | false =>
              cases b with
              | true =>
                  rw [flowBracketDepthGo.eq_def] at h ⊢
                  simp only [] at h ⊢
                  by_cases hsk : ch = '\\'
                  · simp only [if_pos hsk] at h ⊢
                    cases rest with
                    | nil =>
                        rw [flowBracketDepthGo.eq_def] at h
                        simp only [] at h
                        omega
                    | cons r2 rest2 =>
                        simp only [] at h ⊢
                        have hr2 : rest2.length ≤ n := by
                          simp only [List.length_cons] at hrest
                          omega
                        have h2 := ih rest2 hr2 d (pos + 2) false true h
                        omega
                  · simp only [if_neg hsk] at h ⊢
                    by_cases hq : ch = '"'
                    · simp only [if_pos hq] at h ⊢
                      have h2 := ih rest hrest d (pos + 1) false false h
                      omega
                    · simp only [if_neg hq] at h ⊢
                      have h2 := ih rest hrest d (pos + 1) false true h
                      omega
              | false =>
                  rw [flowBracketDepthGo.eq_def] at h ⊢
                  simp only [] at h ⊢
                  by_cases h1 : ch = '\''
                  · simp only [if_pos h1] at h ⊢
                    have h2 := ih rest hrest d (pos + 1) true false h
                    omega
                  · simp only [if_neg h1] at h ⊢
                    by_cases h2 : ch = '"'
                    · simp only [if_pos h2] at h ⊢
                      have h3 := ih rest hrest d (pos + 1) false true h
                      omega
                    · simp only [if_neg h2] at h ⊢
                      by_cases h3 : ch = '{' ∨ ch = '['
                      · simp only [if_pos h3] at h ⊢
                        have h4 := ih rest hrest (d + 1) (pos + 1) false false h
                        omega
                      · simp only [if_neg h3] at h ⊢
                        by_cases h4 : ch = '\x7d' ∨ ch = ']'
                        · simp only [if_pos h4] at h ⊢
                          by_cases h5 : d - 1 = 0
                          · simp only [if_pos h5] at h ⊢
                            push_cast
                            omega
                          · simp only [if_neg h5] at h ⊢
                            have h6 := ih rest hrest (d - 1) (pos + 1) false false h
                            omega
                        · simp only [if_neg h4] at h ⊢
                          have h5 := ih rest hrest d (pos + 1) false false h
                          omega

mutual

/-- Source `emitTextNode`: handle inline-interpolation continuation at the
head of the text (flushing a pending action into the inline parts as the
source's safety net), then hand the remaining text to the flow/line
stages. -/
def emitTextNodeList (E : ExtFns) (st : EmitterState) (s : List Char) : EmitterState :=
  if s = [] then st
  else
    match st.inlineParts with
    | none => emitTextNodeFlow E st s
    | some ps =>
        let ps1 := if st.pendingActionExpr ≠ "" then ps ++ [inlineExpr st.pendingActionExpr] else ps
        let st1 := { st with
          inlineParts := some ps1
          pendingActionExpr := ""
          pendingActionComment := if st.pendingActionExpr ≠ "" then "" else st.pendingActionComment }
        match List.findIdx? (fun c => c = '\n') s with
        | none => { st1 with inlineParts := some (ps1 ++ [E.esc ⟨s⟩]) }
        | some idx =>
            let st2 := if idx > 0
              then { st1 with inlineParts := some (ps1 ++ [E.esc ⟨s.take idx⟩]) }
              else st1
            let st3 := finalizeInline st2
            let s2 := s.drop idx
            if trimSpaceList s2 = [] then st3 else emitTextNodeFlow E st3 s2
termination_by (s.length, 1)
decreasing_by
  · exact Prod.Lex.right _ (by omega)
  · have hd : (s.drop idx).length ≤ s.length := by simp [List.length_drop]
    rcases Nat.lt_or_ge (s.drop idx).length s.length with hlt | hge
    · exact Prod.Lex.left _ _ hlt
    · have heq : (s.drop idx).length = s.length := le_antisymm hd hge
      rw [heq]
      exact Prod.Lex.right _ (by omega)

/-- Source `emitTextNode`, flow-accumulation continuation: when a flow
collection is open, scan for its end; on completion finalize and re-enter
`emitTextNode` on the remainder. -/
def emitTextNodeFlow (E : ExtFns) (st : EmitterState) (s : List Char) : EmitterState :=
  match st.flowParts with
  | none => emitTextNodeLines E st s
  | some ps =>
      let r := flowBracketDepthGo s st.flowDepth 0 false false
      if h : 0 ≤ r.1 then
        let endPos := r.1.toNat
        let st1 := finalizeFlow E
          { st with flowParts := some (ps ++ [⟨s.take endPos⟩]), flowDepth := 0 }
        let remainder := s.drop endPos
        if trimSpaceList remainder = [] then st1
        else emitTextNodeList E st1 remainder
      else { st with flowParts := some (ps ++ [⟨s⟩]), flowDepth := r.2 }
termination_by (s.length, 0)
decreasing_by
  have hpos := flowBracketDepthGo_pos s.length s le_rfl st.flowDepth 0 false false h
  have hs : 0 < s.length := by
    rcases s with _ | ⟨a, l⟩
    · rw [flowBracketDepthGo.eq_def] at hpos
      simp only [] at hpos
      omega
    · simp
  refine Prod.Lex.left _ _ ?_
  simp only [List.length_drop]
  omega

end

/-- Source `emitTextNode` entry point. -/
def emitTextNode (E : ExtFns) (st : EmitterState) (s : String) : EmitterState :=
  emitTextNodeList E st s.data

/-! ## Expression translation and function dispatch (source `actionToCUE`,
`nodeToExpr`, `convertPrintf`, `core_funcs.go`).  The template AST is
embedded as the flat argument forms the claims exercise: field, variable,
string/number/bool literal, dot and identifier nodes (nested pipe
arguments are outside this embedding). -/

/-- Flat AST argument node (subset of `text/template/parse` nodes). -/
inductive PArg : Type where
  | field (ident : List String)
  | varNode (ident : List String)
  | str (s : String)
  | num (text : String) (intVal : Int)
  | boolLit (b : Bool)
  | dot
  | ident (name : String)
deriving Repr, DecidableEq

instance : Inhabited PArg := ⟨PArg.dot⟩

/-- A pipeline command: a function-or-value plus argument nodes. -/
structure PCmd where
  args : List PArg
deriving Repr, DecidableEq

/-- A pipe: declared locals and a command sequence. -/
structure PPipe where
  decl : List String
  cmds : List PCmd
deriving Repr, DecidableEq

/-- Source `rangeContext`. -/
structure RangeCtx where
  cueExpr : String
  helmObj : String
  basePath : List String
deriving Repr, DecidableEq

/-- Source `PipelineFunc` configuration record (the `Convert` function is
a Lean function; `none` is Go's nil no-op converter). -/
structure PipelineFuncModel where
  nargs : Nat
  imports : List String
  helpers : List String
  convert : Option (String → List String → String)
  passthrough : Bool
  nonScalar : Bool

/-- Association-list lookup, modelling Go map indexing. -/
def lookupAssoc {α : Type} (m : List (String × α)) (k : String) : Option α :=
  (m.find? (fun p => p.1 = k)).map (fun p => p.2)

/-- Dispatch-relevant fields of the source `converter` plus its `Config`.
Maps become association lists, sets become duplicate-free lists, and the
`rangeVarStack` keeps its top at the head. -/
structure ConvState where
  contextObjects : List (String × String)
  coreFuncs : Option (List String)
  rootExpr : String
  funcs : List (String × PipelineFuncModel)
  fieldRefs : List (String × List String)
  requiredRefs : List (String × List String)
  rangeRefs : List (String × List String)
  defaults : List (String × List String × String)
  suppressRequired : Bool
  localVars : List (String × String)
  rangeVarStack : List RangeCtx
  usedContextObjects : List String
  comments : List (String × String)
  hasConditions : Bool
  hasDynamicInclude : Bool
  imports : List String
  usedHelpers : List String
  helperExprs : List (String × String)
  undefinedHelpers : List (String × String)
  helperArgRefs : Option (List (List String))
  helperArgFieldRefs : List (String × List (List String))

/-- Fresh converter dispatch state for a configuration. -/
def initConv (contextObjects : List (String × String))
    (coreFuncs : Option (List String)) (rootExpr : String) : ConvState where
  contextObjects := contextObjects
  coreFuncs := coreFuncs
  rootExpr := rootExpr
  funcs := []
  fieldRefs := []
  requiredRefs := []
  rangeRefs := []
  defaults := []
  suppressRequired := false
  localVars := []
  rangeVarStack := []
  usedContextObjects := []
  comments := []
  hasConditions := false
  hasDynamicInclude := false
  imports := []
  usedHelpers := []
  helperExprs := []
  undefinedHelpers := []
  helperArgRefs := none
  helperArgFieldRefs := []

/-- Source `isCoreFunc`: nil set enables every core function; otherwise
only listed names are allowed. -/
def isCoreFunc (st : ConvState) (name : String) : Bool :=
  match st.coreFuncs with
  | none => true
  | some l => l.contains name

/-- Source `trackFieldRef`. -/
def trackFieldRef (st : ConvState) (helmObj : String) (path : List String) : ConvState :=
  { st with
    fieldRefs := st.fieldRefs ++ [(helmObj, path)]
    requiredRefs := if st.suppressRequired then st.requiredRefs
      else st.requiredRefs ++ [(helmObj, path)] }

/-- Source `trackNonScalarRef` (an Option path models a nil Go slice). -/
def trackNonScalarRef (st : ConvState) (helmObj : String)
    (path : Option (List String)) : ConvState :=
  match path with
  | some p =>
      if helmObj ≠ "" then { st with rangeRefs := st.rangeRefs ++ [(helmObj, p)] }
      else st
  | none => st

/-- Source `addImport` (set insertion). -/
def addImport (st : ConvState) (pkg : String) : ConvState :=
  if st.imports.contains pkg then st else { st with imports := st.imports ++ [pkg] }

/-- Marking a context object used (`c.usedContextObjects[x] = true`). -/
def addUsedContext (st : ConvState) (obj : String) : ConvState :=
  if st.usedContextObjects.contains obj then st
  else { st with usedContextObjects := st.usedContextObjects ++ [obj] }

/-- Recording a used helper definition by name
(`c.usedHelpers[h.Name] = h`). -/
def addUsedHelper (st : ConvState) (name : String) : ConvState :=
  if st.usedHelpers.contains name then st
  else { st with usedHelpers := st.usedHelpers ++ [name] }

/-- Source `fieldToCUE`: map the leading identifier through the context
objects and join with dots; second component is the Helm object name. -/
def fieldToCUE (contextObjects : List (String × String)) (ident : List String) :
    String × String :=
  match ident with
  | [] => ("", "")
  | i0 :: rest =>
      match lookupAssoc contextObjects i0 with
      | some mapped => (String.intercalate "." (mapped :: rest), i0)
      | none => (String.intercalate "." (i0 :: rest), "")

/-- Source `fieldToCUEInContext`: context objects win; otherwise an active
range/with rebinding prefixes the dot expression, recording `#arg`
references and outer-context field paths. -/
def fieldToCUEInContext (st : ConvState) (ident : List String) :
    String × String × ConvState :=
  if (match ident with
      | i0 :: _ => (lookupAssoc st.contextObjects i0).isSome
      | [] => false) then
    let r := fieldToCUE st.contextObjects ident
    (r.1, r.2, st)
  else
    match st.rangeVarStack with
    | top :: _ =>
        let st1 := if top.cueExpr = "#arg" ∧ st.helperArgRefs.isSome
          then { st with helperArgRefs := some ((st.helperArgRefs.getD []) ++ [ident]) }
          else st
        let st2 := if top.helmObj ≠ ""
          then addUsedContext (trackFieldRef st1 top.helmObj (top.basePath ++ ident)) top.helmObj
          else st1
        (String.intercalate "." (top.cueExpr :: ident), "", st2)
    | [] =>
        let r := fieldToCUE st.contextObjects ident
        (r.1, r.2, st)

/-- Source `nodeToCUELiteral` on the embedded argument forms (string,
integer number, bool; everything else is the unsupported-literal error). -/
def nodeToCUELiteral (a : PArg) : Except String String :=
  match a with
  | .str s => .ok (goQuote s)
  | .num _ n => .ok (toString n)
  | .boolLit b => .ok (if b then "true" else "false")
  | _ => .error "unsupported literal node"

/-- Source `nodeToExpr` on the embedded argument forms. -/
def nodeToExpr (st : ConvState) (a : PArg) :
    Except String (String × String × ConvState) :=
  match a with
  | .field ident =>
      let r := fieldToCUEInContext st ident
      if r.2.1 ≠ "" then
        .ok (r.1, r.2.1, addUsedContext (trackFieldRef r.2.2 r.2.1 ident.tail) r.2.1)
      else .ok (r.1, "", r.2.2)
  | .varNode ident =>
      match ident with
      | "$" :: rest =>
          if rest.length ≥ 1 then
            let r := fieldToCUE st.contextObjects rest
            if r.2 ≠ "" then
              .ok (r.1, r.2, addUsedContext (trackFieldRef st r.2 (rest.tail)) r.2)
            else .ok (r.1, r.2, st)
          else .error "unsupported variable"
      | v0 :: rest =>
          match lookupAssoc st.localVars v0 with
          | some localExpr =>
              if rest = [] then .ok (localExpr, "", st)
              else .ok (localExpr ++ "." ++ String.intercalate "." rest, "", st)
          | none => .error "unsupported variable"
      | [] => .error "unsupported variable"
  | .str s => .ok (goQuote s, "", st)
  | .num text _ => .ok (text, "", st)
  | .boolLit b => .ok (if b then "true" else "false", "", st)
  | .dot =>
      match st.rangeVarStack with
      | top :: _ => .ok (top.cueExpr, "", st)
      | [] =>
          if st.rootExpr ≠ "" then .ok (st.rootExpr, "", st)
          else .error "{{ . }} outside range/with not supported"
  | .ident _ => .error "unsupported node type"

/-- Wrapping of an expression in the `_nonzero` truthiness check as in
source condition handling. -/
def nonzeroWrap (expr : String) : String :=
  "(_nonzero & \x7b#arg: " ++ expr ++ ", _\x7d)"

/-- Source `conditionNodeToExpr` on the embedded argument forms. -/
def conditionNodeToExpr (st : ConvState) (a : PArg) :
    Except String (String × ConvState) :=
  match a with
  | .field ident =>
      let r := fieldToCUEInContext st ident
      let st1 := if r.2.1 ≠ "" then
          (if ident.length ≥ 2
            then trackFieldRef (addUsedContext r.2.2 r.2.1) r.2.1 ident.tail
            else addUsedContext r.2.2 r.2.1)
        else r.2.2
      .ok (nonzeroWrap r.1, st1)
  | .varNode ident =>
      match ident with
      | "$" :: rest =>
          let r := fieldToCUE st.contextObjects rest
          let st1 := if r.2 ≠ "" then
              (if rest.length ≥ 2
                then trackFieldRef (addUsedContext st r.2) r.2 rest.tail
                else addUsedContext st r.2)
            else st
          .ok (nonzeroWrap r.1, st1)
      | v0 :: rest =>
          match lookupAssoc st.localVars v0 with
          | some localExpr =>
              if rest = [] then .ok (nonzeroWrap localExpr, st)
              else .ok (nonzeroWrap (localExpr ++ "." ++ String.intercalate "." rest), st)
          | none => .error "unsupported variable in condition"
      | [] => .error "unsupported variable in condition"
  | _ => .error "unsupported condition node"

/-- Loop of the source `convertPrintf` over the format string: `%s`, `%d`
and `%v` consume one argument each, `%%` emits a literal percent, any
other verb is an error, and running out of arguments is an error; other
characters are escaped for a CUE interpolated string. -/
def printfPiece (c : Char) : String :=
  if c = '\\' then "\\\\"
  else if c = '"' then "\\\""
  else if c = '\n' then "\\n"
  else if c = '\t' then "\\t"
  else (⟨[c]⟩ : String)

def printfLoop (st : ConvState) : List Char → List PArg → Nat → String → String →
    Except String (String × String × ConvState)
  | [], _, _, acc, helmObj => .ok ("\"" ++ acc ++ "\"", helmObj, st)
  | [c], _, _, acc, helmObj =>
      if c = '%' then .ok ("\"" ++ (acc ++ "%") ++ "\"", helmObj, st)
      else .ok ("\"" ++ (acc ++ printfPiece c) ++ "\"", helmObj, st)
  | c :: v :: rest2, valueArgs, argIdx, acc, helmObj =>
      if c = '%' then
        if v = 's' ∨ v = 'd' ∨ v = 'v' then
          match valueArgs.head? with
          | none => .error "printf: not enough arguments for format string"
          | some a =>
              match nodeToExpr st a with
              | .error e =>
                  .error ("printf argument " ++ toString (argIdx + 1) ++ ": " ++ e)
              | .ok (expr, obj, st1) =>
                  printfLoop st1 rest2 valueArgs.tail (argIdx + 1)
                    (acc ++ "\\(" ++ expr ++ ")")
                    (if obj ≠ "" then obj else helmObj)
        else if v = '%' then
          printfLoop st rest2 valueArgs argIdx (acc ++ "%") helmObj
        else .error ("printf: unsupported format verb %" ++ (⟨[v]⟩ : String))
      else
        printfLoop st (v :: rest2) valueArgs argIdx (acc ++ printfPiece c) helmObj

/-- Source `convertPrintf`: the format must be a string literal; the
result is one CUE interpolated string. -/
def convertPrintf (st : ConvState) (args : List PArg) :
    Except String (String × String × ConvState) :=
  match args with
  | [] => .error "printf requires at least a format string"
  | fmtArg :: valueArgs =>
      match fmtArg with
      | .str format => printfLoop st format.data valueArgs 0 "" ""
      | _ => .error "printf format must be a string literal"

/-- Source `handleInclude`: resolve a helper name to its CUE hidden field
name, recording unknown names in `undefinedHelpers`. -/
def handleInclude (st : ConvState) (name : String) : String × ConvState :=
  match lookupAssoc st.helperExprs name with
  | some cueName => (cueName, st)
  | none =>
      let cueName := helperToCUEName name
      (cueName, { st with undefinedHelpers := st.undefinedHelpers ++ [(name, cueName)] })

/-- Source `propagateHelperArgRefs`. -/
def propagateHelperArgRefs (st : ConvState) (cueName helmObj : String)
    (basePath : List String) : ConvState :=
  let argRefs := (lookupAssoc st.helperArgFieldRefs cueName).getD []
  argRefs.foldl (fun s ref => trackFieldRef s helmObj (basePath ++ ref)) st

/-- Source `convertIncludeContext` on the embedded argument forms. -/
def convertIncludeContext (st : ConvState) (node : PArg) :
    Except String (String × String × Option (List String) × ConvState) :=
  match node with
  | .dot => .ok ("", "", none, st)
  | .varNode _ => .ok ("", "", none, st)
  | .field ident =>
      let r := fieldToCUEInContext st ident
      let st1 := if r.2.1 ≠ "" then
          (if ident.length ≥ 2
            then trackFieldRef (addUsedContext r.2.2 r.2.1) r.2.1 ident.tail
            else addUsedContext r.2.2 r.2.1)
        else r.2.2
      let bp := if r.2.1 ≠ "" ∧ ident.length ≥ 2 then some ident.tail else none
      .ok (r.1, r.2.1, bp, st1)
  | _ => .error "include: unsupported context argument (only ., $, field references, and dict/list are supported)"

/-- Source `convertTplContext`: a `tpl` call may reference any context
object at runtime, so all configured objects are marked used. -/
def convertTplContext (st : ConvState) : ConvState :=
  st.contextObjects.foldl (fun s p => addUsedContext s p.1) st

/-- Literal-with-expression-fallback resolution used by `default`
handling: try `nodeToCUELiteral`, fall back to `nodeToExpr`, and report
the original literal error when both fail. -/
def literalOrExpr (st : ConvState) (a : PArg) : Except String (String × ConvState) :=
  match nodeToCUELiteral a with
  | .ok lit => .ok (lit, st)
  | .error litErr =>
      match nodeToExpr st a with
      | .ok r => .ok (r.1, r.2.2)
      | .error _ => .error litErr

/-- Argument loop shared by `list`, `min`, `max` (source pattern
`for _, arg := range first.Args[1:]` with last-object-wins tracking). -/
def nodeToExprAll (pre : String) (st : ConvState) (helmObj : String) :
    List PArg → Except String (List String × String × ConvState)
  | [] => .ok ([], helmObj, st)
  | a :: rest =>
      match nodeToExpr st a with
      | .error e => .error (pre ++ e)
      | .ok (expr, obj, st1) =>
          match nodeToExprAll pre st1 (if obj ≠ "" then obj else helmObj) rest with
          | .error e => .error e
          | .ok (es, ho, st2) => .ok (expr :: es, ho, st2)

/-- Key-value pair loop of the source `dict` handling. -/
def dictPairs (st : ConvState) (helmObj : String) :
    List PArg → Except String (List String × String × ConvState)
  | [] => .ok ([], helmObj, st)
  | k :: v :: rest =>
      match k with
      | .str keyText =>
          (match nodeToExpr st v with
          | .error e => .error ("dict value: " ++ e)
          | .ok (valExpr, valObj, st1) =>
              match dictPairs st1 (if valObj ≠ "" then valObj else helmObj) rest with
              | .error e => .error e
              | .ok (parts, ho, st2) =>
                  .ok ((cueKey keyText ++ ": " ++ valExpr) :: parts, ho, st2))
      | _ => .error "dict key must be a string literal"
  | [_] => .error "dict requires an even number of arguments"

/-- Element loop of the source `coalesce` handling: every element but the
last is guarded by its own truthiness condition. -/
def coalesceLoop (st : ConvState) (helmObj : String) :
    List PArg → Except String (List String × String × ConvState)
  | [] => .ok ([], helmObj, st)
  | [a] =>
      (match nodeToExpr st a with
      | .error e => .error ("coalesce argument: " ++ e)
      | .ok (expr, obj, st1) => .ok ([expr], if obj ≠ "" then obj else helmObj, st1))
  | a :: b :: rest =>
      match nodeToExpr st a with
      | .error e => .error ("coalesce argument: " ++ e)
      | .ok (expr, obj, st1) =>
          match conditionNodeToExpr st1 a with
          | .error e => .error ("coalesce condition: " ++ e)
          | .ok (condExpr, st2) =>
              match coalesceLoop st2 (if obj ≠ "" then obj else helmObj) (b :: rest) with
              | .error e => .error e
              | .ok (es, ho, st3) =>
                  .ok (("if " ++ condExpr ++ " \x7b" ++ expr ++ "\x7d") :: es, ho, st3)

/-- Literal extraction loop of the source `extractPipelineArgs`. -/
def extractLiteralsGo : List PArg → Nat → Except String (List String)
  | [], _ => .ok []
  | a :: rest, i =>
      match nodeToCUELiteral a with
      | .error e => .error ("argument " ++ toString i ++ ": " ++ e)
      | .ok lit =>
          match extractLiteralsGo rest (i + 1) with
          | .error e => .error e
          | .ok ls => .ok (lit :: ls)

/-- Source `extractPipelineArgs`: exact arity check, then literal
extraction. -/
def extractPipelineArgs (fname : String) (cmd : PCmd) (n : Nat) :
    Except String (List String) :=
  if cmd.args.length - 1 ≠ n then
    .error (fname ++ " requires " ++ toString n ++ " argument(s), got " ++
      toString (cmd.args.length - 1))
  else extractLiteralsGo cmd.args.tail 1

/-- Explicit-argument extraction of the configurable-function first-command
branch (literal, falling back to a full expression). -/
def extractFuncArgs (fname : String) (st : ConvState) :
    List PArg → Except String (List String × ConvState)
  | [] => .ok ([], st)
  | a :: rest =>
      match nodeToCUELiteral a with
      | .ok lit =>
          (match extractFuncArgs fname st rest with
          | .error e => .error e
          | .ok (ls, st1) => .ok (lit :: ls, st1))
      | .error litErr =>
          match nodeToExpr st a with
          | .error _ => .error (fname ++ " argument: " ++ litErr)
          | .ok (expr, _, st1) =>
              match extractFuncArgs fname st1 rest with
              | .error e => .error e
              | .ok (ls, st2) => .ok (expr :: ls, st2)

/-- Result bundle of the first-command stage of `actionToCUE`:
expression, Helm object, field path (`none` models a nil Go slice) and
the gated-function name (empty when no gate fired). -/
structure FirstCmdRes where
  expr : String
  helmObj : String
  fieldPath : Option (List String)
  gatedFunc : String
  st : ConvState

/-- Single-argument first command of the source `actionToCUE` (field,
variable, dot, identifier, literals). -/
def actionFirstSingle (st : ConvState) (a : PArg) : Except String FirstCmdRes :=
  match a with
  | .field ident =>
      let r := fieldToCUEInContext st ident
      if r.2.1 ≠ "" then
        .ok ⟨r.1, r.2.1, some ident.tail, "", trackFieldRef r.2.2 r.2.1 ident.tail⟩
      else .ok ⟨r.1, "", none, "", r.2.2⟩
  | .varNode ident =>
      (match ident with
      | "$" :: r1 :: rest' =>
          let r := fieldToCUE st.contextObjects (r1 :: rest')
          if r.2 ≠ "" then
            let fp : Option (List String) := if rest' ≠ [] then some rest' else none
            .ok ⟨r.1, r.2, fp, "", trackFieldRef st r.2 (fp.getD [])⟩
          else .ok ⟨r.1, "", none, "", st⟩
      | "$" :: [] => .ok ⟨"", "", none, "", st⟩
      | v0 :: r1 :: rest' =>
          (match lookupAssoc st.localVars v0 with
          | some localExpr =>
              .ok ⟨localExpr ++ "." ++ String.intercalate "." (r1 :: rest'), "", none, "", st⟩
          | none => .ok ⟨"", "", none, "", st⟩)
      | [v0] =>
          (match lookupAssoc st.localVars v0 with
          | some localExpr => .ok ⟨localExpr, "", none, "", st⟩
          | none => .ok ⟨"", "", none, "", st⟩)
      | [] => .ok ⟨"", "", none, "", st⟩)
  | .dot =>
      (match st.rangeVarStack with
      | top :: _ => .ok ⟨top.cueExpr, "", none, "", st⟩
      | [] =>
          if st.rootExpr ≠ "" then .ok ⟨st.rootExpr, "", none, "", st⟩
          else .error "\x7b\x7b . \x7d\x7d outside range/with not supported")
  | .ident name =>
      (match name with
      | "list" =>
          if isCoreFunc st name then .ok ⟨"[]", "", none, "", st⟩
          else .ok ⟨"", "", none, name, st⟩
      | "dict" =>
          if isCoreFunc st name then .ok ⟨"\x7b\x7d", "", none, "", st⟩
          else .ok ⟨"", "", none, name, st⟩
      | _ => .ok ⟨"", "", none, "", st⟩)
  | .str s => .ok ⟨goQuote s, "", none, "", st⟩
  | .num text _ => .ok ⟨text, "", none, "", st⟩
  | .boolLit b => .ok ⟨if b then "true" else "false", "", none, "", st⟩

/-- Multi-argument first command of the source `actionToCUE`: the
identifier switch over the core-handled functions, each guarded by
`isCoreFunc`, followed by the configurable-function fallback. -/
def actionFirstMulti (st : ConvState) (idName : String) (args : List PArg) :
    Except String FirstCmdRes :=
  let gate : Except String FirstCmdRes := .ok ⟨"", "", none, idName, st⟩
  match idName with
  | "default" =>
      if ¬ isCoreFunc st idName then gate
      else if args.length ≠ 3 then
        .error ("default requires 2 arguments, got " ++ toString (args.length - 1))
      else
        match literalOrExpr st args[1]! with
        | .error litErr => .error ("default value: " ++ litErr)
        | .ok (defaultVal, st1) =>
            match args[2]! with
            | .field ident =>
                let r := fieldToCUE st1.contextObjects ident
                if r.2 ≠ "" then
                  let fp := ident.tail
                  let st2 := trackFieldRef st1 r.2 fp
                  .ok ⟨r.1, r.2, some fp, "",
                    { st2 with defaults := st2.defaults ++ [(r.2, fp, defaultVal)] }⟩
                else .ok ⟨r.1, "", none, "", st1⟩
            | .varNode ident =>
                (match ident with
                | "$" :: r1 :: rest' =>
                    let r := fieldToCUE st1.contextObjects (r1 :: rest')
                    if r.2 ≠ "" then
                      let fp : Option (List String) := if rest' ≠ [] then some rest' else none
                      let st2 := trackFieldRef st1 r.2 (fp.getD [])
                      .ok ⟨r.1, r.2, fp, "",
                        { st2 with defaults := st2.defaults ++ [(r.2, fp.getD [], defaultVal)] }⟩
                    else .ok ⟨r.1, "", none, "", st1⟩
                | v0 :: r1 :: rest' =>
                    (match lookupAssoc st1.localVars v0 with
                    | some localExpr =>
                        .ok ⟨localExpr ++ "." ++ String.intercalate "." (r1 :: rest'),
                          "", none, "", st1⟩
                    | none => .ok ⟨"", "", none, "", st1⟩)
                | [v0] =>
                    (match lookupAssoc st1.localVars v0 with
                    | some localExpr => .ok ⟨localExpr, "", none, "", st1⟩
                    | none => .ok ⟨"", "", none, "", st1⟩)
                | [] => .ok ⟨"", "", none, "", st1⟩)
            | other =>
                match nodeToExpr st1 other with
                | .error e => .error ("default field: " ++ e)
                | .ok (argExpr, argObj, st2) => .ok ⟨argExpr, argObj, none, "", st2⟩
  | "printf" =>
      (match convertPrintf st args.tail with
      | .error e => .error e
      | .ok (cueExpr, obj, st1) => .ok ⟨cueExpr, obj, none, "", st1⟩)
  | "required" =>
      if ¬ isCoreFunc st idName then gate
      else if args.length ≠ 3 then
        .error ("required requires 2 arguments, got " ++ toString (args.length - 1))
      else
        match nodeToCUELiteral args[1]! with
        | .error e => .error ("required message: " ++ e)
        | .ok msg =>
            match args[2]! with
            | .field ident =>
                let r := fieldToCUE st.contextObjects ident
                let st1 := if r.2 ≠ "" then trackFieldRef st r.2 ident.tail else st
                let fp : Option (List String) := if r.2 ≠ "" then some ident.tail else none
                .ok ⟨r.1, r.2, fp, "",
                  { st1 with comments := st1.comments ++ [(r.1, "// required: " ++ msg)] }⟩
            | _ => .ok ⟨"", "", none, "", st⟩
  | "include" =>
      if ¬ isCoreFunc st idName then gate
      else
        let ctxStep : Except String (String × String × Option (List String) × ConvState) :=
          if args.length ≥ 3 then convertIncludeContext st args[2]!
          else .ok ("", "", none, st)
        match ctxStep with
        | .error e => .error e
        | .ok (argExpr, ctxHelmObj, ctxBasePath, st1) =>
            match args[1]! with
            | .str nameText =>
                let r := handleInclude st1 nameText
                let st2 := if ctxHelmObj ≠ ""
                  then propagateHelperArgRefs r.2 r.1 ctxHelmObj (ctxBasePath.getD [])
                  else r.2
                let expr := if argExpr ≠ ""
                  then r.1 ++ " & \x7b#arg: " ++ argExpr ++ ", _\x7d"
                  else r.1
                .ok ⟨expr, "", none, "", st2⟩
            | _ => .error "include: unsupported dynamic template name"
  | "ternary" =>
      if ¬ isCoreFunc st idName then gate
      else if args.length ≠ 4 then
        .error ("ternary requires 3 arguments, got " ++ toString (args.length - 1))
      else
        match nodeToExpr st args[1]! with
        | .error e => .error ("ternary true value: " ++ e)
        | .ok (trueVal, trueObj, st1) =>
            match nodeToExpr st1 args[2]! with
            | .error e => .error ("ternary false value: " ++ e)
            | .ok (falseVal, falseObj, st2) =>
                match conditionNodeToExpr st2 args[3]! with
                | .error e => .error ("ternary condition: " ++ e)
                | .ok (condExpr, st3) =>
                    let helmObj := if falseObj ≠ "" then falseObj
                      else if trueObj ≠ "" then trueObj else ""
                    .ok ⟨"[if " ++ condExpr ++ " \x7b" ++ trueVal ++ "\x7d, " ++
                        falseVal ++ "][0]", helmObj, none, "",
                      { st3 with hasConditions := true }⟩
  | "list" =>
      if ¬ isCoreFunc st idName then gate
      else
        match nodeToExprAll "list argument: " st "" args.tail with
        | .error e => .error e
        | .ok (elems, helmObj, st1) =>
            .ok ⟨"[" ++ String.intercalate ", " elems ++ "]", helmObj, none, "", st1⟩
  | "dict" =>
      if ¬ isCoreFunc st idName then gate
      else if args.tail.length % 2 ≠ 0 then
        .error ("dict requires an even number of arguments, got " ++
          toString args.tail.length)
      else
        match dictPairs st "" args.tail with
        | .error e => .error e
        | .ok (parts, helmObj, st1) =>
            .ok ⟨"\x7b" ++ String.intercalate ", " parts ++ "\x7d", helmObj, none, "", st1⟩
  | "get" =>
      if ¬ isCoreFunc st idName then gate
      else if args.length ≠ 3 then
        .error ("get requires 2 arguments, got " ++ toString (args.length - 1))
      else
        match nodeToExpr st args[1]! with
        | .error e => .error ("get map argument: " ++ e)
        | .ok (mapExpr, mapObj, st1) =>
            let st2 := if mapObj ≠ "" then
                (match (st1.fieldRefs.filter (fun p => p.1 = mapObj)).getLast? with
                | some lastRef => trackNonScalarRef st1 mapObj (some lastRef.2)
                | none => st1)
              else st1
            match args[2]! with
            | .str keyText =>
                if identReMatch keyText then
                  .ok ⟨mapExpr ++ "." ++ keyText, mapObj, none, "", st2⟩
                else .ok ⟨mapExpr ++ "[" ++ goQuote keyText ++ "]", mapObj, none, "", st2⟩
            | other =>
                match nodeToExpr st2 other with
                | .error e => .error ("get key argument: " ++ e)
                | .ok (keyExpr, _, st3) =>
                    .ok ⟨mapExpr ++ "[" ++ keyExpr ++ "]", mapObj, none, "", st3⟩
  | "coalesce" =>
      if ¬ isCoreFunc st idName then gate
      else if args.length < 2 then .error "coalesce requires at least 1 argument"
      else
        match coalesceLoop { st with hasConditions := true } "" args.tail with
        | .error e => .error e
        | .ok (elems, helmObj, st1) =>
            .ok ⟨"[" ++ String.intercalate ", " elems ++ "][0]", helmObj, none, "", st1⟩
  | "max" =>
      if ¬ isCoreFunc st idName then gate
      else if args.length < 3 then
        .error ("max requires at least 2 arguments, got " ++ toString (args.length - 1))
      else
        match nodeToExprAll "max argument: " st "" args.tail with
        | .error e => .error e
        | .ok (elems, helmObj, st1) =>
            .ok ⟨"list.Max([" ++ String.intercalate ", " elems ++ "])", helmObj, none, "",
              addImport st1 "list"⟩
  | "min" =>
      if ¬ isCoreFunc st idName then gate
      else if args.length < 3 then
        .error ("min requires at least 2 arguments, got " ++ toString (args.length - 1))
      else
        match nodeToExprAll "min argument: " st "" args.tail with
        | .error e => .error e
        | .ok (elems, helmObj, st1) =>
            .ok ⟨"list.Min([" ++ String.intercalate ", " elems ++ "])", helmObj, none, "",
              addImport st1 "list"⟩
  | "tpl" =>
      if ¬ isCoreFunc st idName then gate
      else if args.length ≠ 3 then
        .error ("tpl requires 2 arguments, got " ++ toString (args.length - 1))
      else
        match nodeToExpr st args[1]! with
        | .error e => .error ("tpl template argument: " ++ e)
        | .ok (tmplExpr, tmplObj, st1) =>
            let st2 := convertTplContext st1
            let st3 := addUsedHelper (addImport (addImport st2 "encoding/yaml") "text/template")
              "_tplContext"
            .ok ⟨"yaml.Unmarshal(template.Execute(" ++ tmplExpr ++ ", _tplContext))",
              tmplObj, none, "", st3⟩
  | "merge" =>
      if ¬ isCoreFunc st idName then gate
      else .error ("function \"merge\" has no CUE equivalent: CUE uses unification instead of mutable map merging")
  | "mergeOverwrite" =>
      if ¬ isCoreFunc st idName then gate
      else .error ("function \"mergeOverwrite\" has no CUE equivalent: CUE uses unification instead of mutable map merging")
  | _ =>
      match lookupAssoc st.funcs idName with
      | none => .ok ⟨"", "", none, "", st⟩
      | some pf =>
          if pf.passthrough ∧ args.length = 2 then
            match nodeToExpr st args[1]! with
            | .error e => .error (idName ++ " argument: " ++ e)
            | .ok (expr, helmObj, st1) =>
                match args[1]! with
                | .field ident =>
                    if helmObj ≠ "" ∧ ident.length ≥ 2 then
                      let st2 := if pf.nonScalar
                        then trackNonScalarRef st1 helmObj (some ident.tail) else st1
                      .ok ⟨expr, helmObj, some ident.tail, "", st2⟩
                    else .ok ⟨expr, helmObj, none, "", st1⟩
                | _ => .ok ⟨expr, helmObj, none, "", st1⟩
          else if pf.convert.isSome ∧ args.length = pf.nargs + 2 then
            match extractFuncArgs idName st (args.tail.take pf.nargs) with
            | .error e => .error e
            | .ok (fargs, st1) =>
                match nodeToExpr st1 args[pf.nargs + 1]! with
                | .error e => .error (idName ++ " argument: " ++ e)
                | .ok (pipedExpr, helmObj, st2) =>
                    let fpRes : Option (List String) :=
                      match args[pf.nargs + 1]! with
                      | .field ident =>
                          if helmObj ≠ "" ∧ ident.length ≥ 2 then some ident.tail else none
                      | _ => none
                    let st3 := match fpRes with
                      | some fp =>
                          if pf.nonScalar then trackNonScalarRef st2 helmObj (some fp) else st2
                      | none => st2
                    let expr := (pf.convert.getD (fun e _ => e)) pipedExpr fargs
                    let st4 := pf.imports.foldl addImport st3
                    let st5 := pf.helpers.foldl addUsedHelper st4
                    .ok ⟨expr, helmObj, fpRes, "", st5⟩
          else .ok ⟨"", "", none, "", st⟩

/-- One pipeline stage of the source `actionToCUE` loop over
`pipe.Cmds[1:]`: core-gated `default`, `required` and `tpl`, then the
configurable pipeline functions; an unknown or gated name is the
unsupported-pipeline-function error. -/
def pipelineStage (st : ConvState) (expr helmObj : String)
    (fieldPath : Option (List String)) (cmd : PCmd) :
    Except String (String × ConvState) :=
  match cmd.args with
  | [] => .error "empty command in pipeline"
  | arg0 :: _ =>
      match arg0 with
      | .ident idName =>
          (match idName with
          | "default" =>
              if isCoreFunc st idName then
                if cmd.args.length ≠ 2 then
                  .error "default in pipeline requires 1 argument"
                else
                  match literalOrExpr st cmd.args[1]! with
                  | .error litErr => .error ("default value: " ++ litErr)
                  | .ok (defaultVal, st1) =>
                      match fieldPath with
                      | some fp =>
                          if helmObj ≠ "" then
                            .ok (expr, { st1 with
                              defaults := st1.defaults ++ [(helmObj, fp, defaultVal)] })
                          else .ok (expr, st1)
                      | none => .ok (expr, st1)
              else
                .error ("unsupported pipeline function: " ++ idName ++
                  " (not a text/template builtin)")
          | "required" =>
              if isCoreFunc st idName then
                match extractPipelineArgs idName cmd 1 with
                | .error e => .error e
                | .ok msgs =>
                    .ok (expr, { st with
                      comments := st.comments ++
                        [(expr, "// required: " ++ msgs.headD "")] })
              else
                .error ("unsupported pipeline function: " ++ idName ++
                  " (not a text/template builtin)")
          | "tpl" =>
              if isCoreFunc st idName then
                if cmd.args.length ≠ 2 then
                  .error "tpl in pipeline requires 1 argument (context)"
                else
                  let st1 := convertTplContext st
                  let st2 := addUsedHelper
                    (addImport (addImport st1 "encoding/yaml") "text/template") "_tplContext"
                  .ok ("yaml.Unmarshal(template.Execute(" ++ expr ++ ", _tplContext))", st2)
              else
                .error ("unsupported pipeline function: " ++ idName ++
                  " (not a text/template builtin)")
          | _ =>
              match lookupAssoc st.funcs idName with
              | none => .error ("unsupported pipeline function: " ++ idName)
              | some pf =>
                  let st1 := if pf.nonScalar
                    then trackNonScalarRef st helmObj fieldPath else st
                  match pf.convert with
                  | none => .ok (expr, st1)
                  | some conv =>
                      let argStep : Except String (List String) :=
                        if pf.nargs > 0 then extractPipelineArgs idName cmd pf.nargs
                        else .ok []
                      match argStep with
                      | .error e => .error e
                      | .ok fargs =>
                          let result := conv expr fargs
                          if result = "" then
                            .error ("function \"" ++ idName ++
                              "\" has no CUE equivalent and cannot be converted")
                          else
                            let st2 := pf.imports.foldl addImport st1
                            let st3 := pf.helpers.foldl addUsedHelper st2
                            .ok (result, st3))
      | _ => .error "unsupported pipeline function"

/-- Remaining-stages loop of the source `actionToCUE`. -/
def pipelineLoop (st : ConvState) (expr helmObj : String)
    (fieldPath : Option (List String)) :
    List PCmd → Except String (String × ConvState)
  | [] => .ok (expr, st)
  | cmd :: rest =>
      match pipelineStage st expr helmObj fieldPath cmd with
      | .error e => .error e
      | .ok (expr1, st1) => pipelineLoop st1 expr1 helmObj fieldPath rest

/-- Source `actionToCUE`: dispatch the first command, fail on an empty
expression (naming the gated function when one was excluded by
`CoreFuncs`), then run the remaining pipeline stages. -/
def actionToCUE (st : ConvState) (n : PPipe) :
    Except String (String × String × ConvState) :=
  match n.cmds with
  | [] => .error "empty pipe in action"
  | first :: restCmds =>
      let firstStep : Except String FirstCmdRes :=
        match first.args with
        | [] => .ok ⟨"", "", none, "", st⟩
        | [a] => actionFirstSingle st a
        | a0 :: _ :: _ =>
            match a0 with
            | .ident idName => actionFirstMulti st idName first.args
            | _ => .ok ⟨"", "", none, "", st⟩
      match firstStep with
      | .error e => .error e
      | .ok r =>
          if r.expr = "" then
            if r.gatedFunc ≠ "" then
              .error ("unsupported pipeline function: " ++ r.gatedFunc ++
                " (not a text/template builtin)")
            else .error "unsupported template action"
          else
            match pipelineLoop r.st r.expr r.helmObj r.fieldPath restCmds with
            | .error e => .error e
            | .ok (expr, st1) => .ok (expr, r.helmObj, st1)

/-! ## Helper parsing and the shared tree set (source `parseHelpers`,
`convertStructured`).  Parsed template trees are modelled by their body
text; the external `text/template/parse` parser's documented interface is
an insert-if-absent into the shared map (it rejects a second definition
of a name), with define blocks added as encountered. -/

/-- Insert-if-absent into a tree set, erroring on an existing name as the
external parser does for a duplicate template definition. -/
def insertUnique (ts : List (String × String)) (k v : String) :
    Except String (List (String × String)) :=
  if (lookupAssoc ts k).isSome then
    .error ("multiple definition of template \"" ++ k ++ "\"")
  else .ok (ts ++ [(k, v)])

/-- Parse a list of definitions into a tree set (all-or-error form, used
for the isolated first pass of `parseHelpers`). -/
def parseInto (ts : List (String × String)) :
    List (String × String) → Except String (List (String × String))
  | [] => .ok ts
  | (k, v) :: rest =>
      match insertUnique ts k v with
      | .error e => .error e
      | .ok ts1 => parseInto ts1 rest

/-- Delete a key from a tree set (Go `delete(treeSet, name)`). -/
def eraseKey (ts : List (String × String)) (k : String) : List (String × String) :=
  ts.filter (fun p => p.1 ≠ k)

/-- Generated helper file name (`fmt.Sprintf("helper%d", i)`). -/
def helperFileName (i : Nat) : String := "helper" ++ toString i

/-- Duplicate-check loop of the source `parseHelpers` over the template
names a file defines: the file's own top-level tree is never a conflict;
an identical body is deleted from the shared set (silent deduplication);
a differing body is an error unless duplicates are allowed, in which case
the earlier definition is removed with a warning. -/
def dupCheck (allowDup : Bool) (fileName : String) :
    List (String × String) → List String → List (String × String) →
    Except String (List (String × String) × List String)
  | ts, warns, [] => .ok (ts, warns)
  | ts, warns, (tname, newBody) :: rest =>
      if tname = fileName then dupCheck allowDup fileName ts warns rest
      else
        match lookupAssoc ts tname with
        | none => dupCheck allowDup fileName ts warns rest
        | some existing =>
            if existing = newBody then
              dupCheck allowDup fileName (eraseKey ts tname) warns rest
            else if ¬ allowDup then
              .error ("conflicting definitions for template \"" ++ tname ++ "\"")
            else
              dupCheck allowDup fileName (eraseKey ts tname)
                (warns ++ ["warning: duplicate helper \"" ++ tname ++
                  "\": using last definition"]) rest

/-- Result of `parseHelpers`: shared tree set, helper file names, and the
warnings written to stderr. -/
structure ParseHelpersRes where
  treeSet : List (String × String)
  helperFileNames : List String
  warnings : List String
deriving Repr, DecidableEq

/-- File loop of the source `parseHelpers`: isolated first parse,
duplicate check against the shared set, then the real parse into the
shared set.  A helper file is its list of `(template name, body)`
definitions; its own top-level tree is modelled with an empty body. -/
def parseHelpersGo (allowDup : Bool) :
    Nat → List (List (String × String)) → List (String × String) →
    List String → List String → Except String ParseHelpersRes
  | _, [], ts, names, warns => .ok ⟨ts, names, warns⟩
  | i, defs :: files, ts, names, warns =>
      let name := helperFileName i
      match parseInto [] (defs ++ [(name, "")]) with
      | .error e => .error ("parsing helper " ++ toString i ++ ": " ++ e)
      | .ok iso =>
          match dupCheck allowDup name ts warns iso with
          | .error e => .error e
          | .ok (ts1, warns1) =>
              match parseInto ts1 (defs ++ [(name, "")]) with
              | .error e => .error ("parsing helper " ++ toString i ++ ": " ++ e)
              | .ok ts2 =>
                  parseHelpersGo allowDup (i + 1) files ts2 (names ++ [name]) warns1

/-- Source `parseHelpers`. -/
def parseHelpers (files : List (List (String × String))) (allowDup : Bool) :
    Except String ParseHelpersRes :=
  parseHelpersGo allowDup 0 files [] [] []

/-- Partial-mutation parse into the shared tree set, as
`tmpl.Parse(input, "\x7b\x7b", "\x7d\x7d", treeSet)` behaves: define
blocks are added as encountered and the main tree is added last; on a
duplicate name the parse stops with an error, leaving the entries added
so far in the set. -/
def parsePartial (ts : List (String × String)) :
    List (String × String) → Option String × List (String × String)
  | [] => (none, ts)
  | (k, v) :: rest =>
      if (lookupAssoc ts k).isSome then
        (some ("multiple definition of template \"" ++ k ++ "\""), ts)
      else parsePartial (ts ++ [(k, v)]) rest

/-- The tree-set effect of the source `convertStructured`: the input
template is parsed INTO the shared tree set (adding its define blocks and
its main tree under `templateName`); the conversion phases 0–1 only read
the set, so their outcome is abstracted by `convertOk`; only the
successful path reaches `delete(treeSet, templateName)` — the early
returns on parse or conversion errors leave the parsed entries in place.
Returns whether the call succeeded and the tree set afterwards. -/
def convertStructuredTreeSet (ts : List (String × String)) (templateName : String)
    (inputDefines : List (String × String)) (rootBody : String)
    (convertOk : Bool) : Bool × List (String × String) :=
  match parsePartial ts (inputDefines ++ [(templateName, rootBody)]) with
  | (some _, ts1) => (false, ts1)
  | (none, ts1) =>
      if convertOk then (true, eraseKey ts1 templateName)
      else (false, ts1)

/-! ## End-of-input finalization and auxiliary measure definitions -/

/-- End-of-input emission sequence at the bottom of the source
`convertStructured`: `finalizeInline`, `finalizeFlow`,
`flushPendingAction`, `flushDeferred`, `closeBlocksTo(-1)`. -/
def finalizeEmitter (E : ExtFns) (st : EmitterState) : EmitterState :=
  closeBlocksTo (-1)
    (flushDeferred (flushPendingAction (finalizeFlow E (finalizeInline st))))

/-- Count of the argument-consuming verbs (`%s`, `%d`, `%v`) in a printf
format string, scanning the same two-character windows as the source
`convertPrintf` loop. -/
def printfVerbsCount : List Char → Nat
  | [] => 0
  | [_] => 0
  | c :: v :: rest2 =>
      if c = '%' then
        if v = 's' ∨ v = 'd' ∨ v = 'v' then printfVerbsCount rest2 + 1
        else printfVerbsCount rest2
      else printfVerbsCount (v :: rest2)

/-- Substring search on character lists (scan of every suffix). -/
def containsList (sub : List Char) : List Char → Bool
  | [] => listStartsWith [] sub
  | c :: cs => listStartsWith (c :: cs) sub || containsList sub cs

/-- Go `strings.Contains`. -/
def strContains (s sub : String) : Bool :=
  containsList sub.data s.data

/-- The function names guarded by `isCoreFunc` in the first-command
switch of the source `actionToCUE` (the `printf` and `print` cases carry
no guard there). -/
def gatedFirstNames : List String :=
  ["default", "required", "include", "ternary", "list", "dict", "get",
   "coalesce", "max", "min", "tpl", "merge", "mergeOverwrite"]

/-- The function names guarded by `isCoreFunc` in the pipeline-stage
switch of the source `actionToCUE`. -/
def gatedPipeNames : List String := ["default", "required", "tpl"]

/-! ## Field-tree lemmas (claim C3) -/

/-- Boolean prefix test on paths. -/
def pathIsPrefixOf : List String → List String → Bool
  | [], _ => true
  | _ :: _, [] => false
  | a :: ps, b :: qs => a = b && pathIsPrefixOf ps qs

theorem name_insertPath (q : List String) (t : FTree) :
    (insertPath q t).name = t.name := by
  cases q <;> cases t <;> rfl

theorem name_setDefaultPath (v : String) (q : List String) (t : FTree) :
    (setDefaultPath v q t).name = t.name := by
  cases q <;> cases t <;> rfl

theorem name_markStopReq (q : List String) (t : FTree) :
    (markStopReq q t).name = t.name := by
  cases q with
  | nil => cases t <;> rfl
  | cons e rest =>
      cases t with
      | mk n cs d r g =>
          rw [markStopReq]
          split <;> rfl

theorem name_markStopRange (q : List String) (t : FTree) :
    (markStopRange q t).name = t.name := by
  cases q with
  | nil => cases t <;> rfl
  | cons e rest =>
      cases t with
      | mk n cs d r g =>
          rw [markStopRange]
          split <;> rfl

theorem find?_updateNamed_ne (e a : String) (f : FTree → FTree) (leaf : FTree)
    (cs : List FTree) (hleaf : leaf.name = e) (hne : a ≠ e)
    (hf : ∀ c, (f c).name = c.name) :
    (updateNamed e f leaf cs).find? (fun c => c.name = a) =
      cs.find? (fun c => c.name = a) := by
  induction cs with
  | nil =>
      have hne2 : ¬ (e = a) := fun h => hne h.symm
      simp [updateNamed, List.find?, hleaf, hne2]
  | cons c cs ih =>
      by_cases hc : c.name = e
      · simp only [updateNamed, if_pos hc, List.find?, hf c, hc]
        have : ¬ (e = a) := fun h => hne h.symm
        simp [this]
      · simp only [updateNamed, if_neg hc, List.find?]
        by_cases hca : c.name = a
        · simp [hca]
        · simp [hca, ih]

theorem find?_updateNamed_eq (e : String) (f : FTree → FTree) (leaf : FTree)
    (cs : List FTree) (hleaf : leaf.name = e) (hf : ∀ c, (f c).name = c.name) :
    (updateNamed e f leaf cs).find? (fun c => c.name = e) =
      (match cs.find? (fun c => c.name = e) with
      | some c => some (f c)
      | none => some leaf) := by
  induction cs with
  | nil => simp [updateNamed, List.find?, hleaf]
  | cons c cs ih =>
      by_cases hc : c.name = e
      · simp [updateNamed, if_pos hc, List.find?, hf c, hc]
      · simp only [updateNamed, if_neg hc, List.find?, hc]
        simpa [hc] using ih

theorem flags_fresh (p : List String) (e : String) :
    requiredAt p (FTree.mk e [] "" false false) = false ∧
    rangeAt p (FTree.mk e [] "" false false) = false := by
  cases p <;> simp [requiredAt, rangeAt, getNode?, FTree.required, FTree.isRange, List.find?]

theorem requiredAt_nil (n : String) (cs : List FTree) (d : String) (r g : Bool) :
    requiredAt [] (FTree.mk n cs d r g) = r := rfl

theorem rangeAt_nil (n : String) (cs : List FTree) (d : String) (r g : Bool) :
    rangeAt [] (FTree.mk n cs d r g) = g := rfl

theorem hasPath_nil (t : FTree) : hasPath [] t = true := rfl

theorem requiredAt_cons (a : String) (p' : List String) (n : String)
    (cs : List FTree) (d : String) (r g : Bool) :
    requiredAt (a :: p') (FTree.mk n cs d r g) =
      (match cs.find? (fun c => c.name = a) with
      | some c => requiredAt p' c
      | none => false) := by
  simp only [requiredAt, getNode?]
  cases cs.find? (fun c => c.name = a) <;> rfl

theorem rangeAt_cons (a : String) (p' : List String) (n : String)
    (cs : List FTree) (d : String) (r g : Bool) :
    rangeAt (a :: p') (FTree.mk n cs d r g) =
      (match cs.find? (fun c => c.name = a) with
      | some c => rangeAt p' c
      | none => false) := by
  simp only [rangeAt, getNode?]
  cases cs.find? (fun c => c.name = a) <;> rfl

theorem hasPath_cons (a : String) (p' : List String) (n : String)
    (cs : List FTree) (d : String) (r g : Bool) :
    hasPath (a :: p') (FTree.mk n cs d r g) =
      (match cs.find? (fun c => c.name = a) with
      | some c => hasPath p' c
      | none => false) := by
  simp only [hasPath, getNode?]
  cases cs.find? (fun c => c.name = a) <;> rfl

theorem flags_insertPath : ∀ (q : List String) (t : FTree) (p : List String),
    requiredAt p (insertPath q t) = requiredAt p t ∧
    rangeAt p (insertPath q t) = rangeAt p t := by
  intro q
  induction q with
  | nil => intro t p; simp [insertPath]
  | cons e rest ih =>
      intro t p
      cases t with
      | mk n cs d r g =>
          cases p with
          | nil => simp [insertPath, requiredAt_nil, rangeAt_nil]
          | cons a p' =>
              have hleaf : (insertPath rest (FTree.mk e [] "" false false)).name = e := by
                rw [name_insertPath]; rfl
              have hf : ∀ c, (insertPath rest c).name = c.name :=
                fun c => name_insertPath rest c
              by_cases hae : a = e
              · subst hae
                have hfind := find?_updateNamed_eq a (insertPath rest)
                  (insertPath rest (FTree.mk a [] "" false false)) cs hleaf hf
                rw [insertPath, requiredAt_cons, rangeAt_cons, requiredAt_cons, rangeAt_cons, hfind]
                cases hcs : cs.find? (fun c => c.name = a) with
                | some c => simpa using ih c p'
                | none =>
                    have hfr := (ih (FTree.mk a [] "" false false) p').1
                    have hgr := (ih (FTree.mk a [] "" false false) p').2
                    have hfresh := flags_fresh p' a
                    simp [hfr, hgr, hfresh.1, hfresh.2]
              · have hfind := find?_updateNamed_ne e a (insertPath rest)
                  (insertPath rest (FTree.mk e [] "" false false)) cs hleaf hae hf
                rw [insertPath, requiredAt_cons, rangeAt_cons, requiredAt_cons, rangeAt_cons, hfind]
                exact ⟨rfl, rfl⟩

theorem flags_setDefaultPath : ∀ (v : String) (q : List String) (t : FTree) (p : List String),
    requiredAt p (setDefaultPath v q t) = requiredAt p t ∧
    rangeAt p (setDefaultPath v q t) = rangeAt p t := by
  intro v q
  induction q with
  | nil =>
      intro t p
      cases t with
      | mk n cs d r g =>
          cases p with
          | nil => simp [setDefaultPath, requiredAt_nil, rangeAt_nil]
          | cons a p' => simp [setDefaultPath, requiredAt_cons, rangeAt_cons]
  | cons e rest ih =>
      intro t p
      cases t with
      | mk n cs d r g =>
          cases p with
          | nil => simp [setDefaultPath, requiredAt_nil, rangeAt_nil]
          | cons a p' =>
              have hleaf : (setDefaultPath v rest (FTree.mk e [] "" false false)).name = e := by
                rw [name_setDefaultPath]; rfl
              have hf : ∀ c, (setDefaultPath v rest c).name = c.name :=
                fun c => name_setDefaultPath v rest c
              by_cases hae : a = e
              · subst hae
                have hfind := find?_updateNamed_eq a (setDefaultPath v rest)
                  (setDefaultPath v rest (FTree.mk a [] "" false false)) cs hleaf hf
                rw [setDefaultPath, requiredAt_cons, rangeAt_cons, requiredAt_cons, rangeAt_cons, hfind]
                cases hcs : cs.find? (fun c => c.name = a) with
                | some c => simpa using ih c p'
                | none =>
                    have hfr := (ih (FTree.mk a [] "" false false) p').1
                    have hgr := (ih (FTree.mk a [] "" false false) p').2
                    have hfresh := flags_fresh p' a
                    simp [hfr, hgr, hfresh.1, hfresh.2]
              · have hfind := find?_updateNamed_ne e a (setDefaultPath v rest)
                  (setDefaultPath v rest (FTree.mk e [] "" false false)) cs hleaf hae hf
                rw [setDefaultPath, requiredAt_cons, rangeAt_cons, requiredAt_cons, rangeAt_cons, hfind]
                exact ⟨rfl, rfl⟩

theorem hasPath_insertPath : ∀ (q : List String) (t : FTree) (p : List String),
    hasPath p (insertPath q t) = (hasPath p t || pathIsPrefixOf p q) := by
  intro q
  induction q with
  | nil =>
      intro t p
      cases p with
      | nil => simp [insertPath, hasPath_nil, pathIsPrefixOf]
      | cons a p' => simp [insertPath, pathIsPrefixOf]
  | cons e rest ih =>
      intro t p
      cases t with
      | mk n cs d r g =>
          cases p with
          | nil => simp [insertPath, hasPath_nil, pathIsPrefixOf]
          | cons a p' =>
              have hleaf : (insertPath rest (FTree.mk e [] "" false false)).name = e := by
                rw [name_insertPath]; rfl
              have hf : ∀ c, (insertPath rest c).name = c.name :=
                fun c => name_insertPath rest c
              by_cases hae : a = e
              · subst hae
                have hfind := find?_updateNamed_eq a (insertPath rest)
                  (insertPath rest (FTree.mk a [] "" false false)) cs hleaf hf
                rw [insertPath, hasPath_cons, hasPath_cons, hfind]
                cases hcs : cs.find? (fun c => c.name = a) with
                | some c => simp [ih c p', pathIsPrefixOf]
                | none =>
                    have hfresh : ∀ p'', hasPath p'' (FTree.mk a [] "" false false) =
                        decide (p'' = []) := by
                      intro p''
                      cases p'' <;> simp [hasPath_nil, hasPath_cons, List.find?]
                    simp only [ih (FTree.mk a [] "" false false) p', hfresh, pathIsPrefixOf]
                    cases p' <;> simp [pathIsPrefixOf]
              · have hfind := find?_updateNamed_ne e a (insertPath rest)
                  (insertPath rest (FTree.mk e [] "" false false)) cs hleaf hae hf
                rw [insertPath, hasPath_cons, hasPath_cons, hfind]
                cases hcs : cs.find? (fun c => c.name = a) with
                | some c => simp [pathIsPrefixOf, hae]
                | none => simp [pathIsPrefixOf, hae]

theorem hasPath_setDefaultPath : ∀ (v : String) (q : List String) (t : FTree) (p : List String),
    hasPath p (setDefaultPath v q t) = (hasPath p t || pathIsPrefixOf p q) := by
  intro v q
  induction q with
  | nil =>
      intro t p
      cases t with
      | mk n cs d r g =>
          cases p with
          | nil => simp [setDefaultPath, hasPath_nil, pathIsPrefixOf]
          | cons a p' => simp [setDefaultPath, hasPath_cons, pathIsPrefixOf]
  | cons e rest ih =>
      intro t p
      cases t with
      | mk n cs d r g =>
          cases p with
          | nil => simp [setDefaultPath, hasPath_nil, pathIsPrefixOf]
          | cons a p' =>
              have hleaf : (setDefaultPath v rest (FTree.mk e [] "" false false)).name = e := by
                rw [name_setDefaultPath]; rfl
              have hf : ∀ c, (setDefaultPath v rest c).name = c.name :=
                fun c => name_setDefaultPath v rest c
              by_cases hae : a = e
              · subst hae
                have hfind := find?_updateNamed_eq a (setDefaultPath v rest)
                  (setDefaultPath v rest (FTree.mk a [] "" false false)) cs hleaf hf
                rw [setDefaultPath, hasPath_cons, hasPath_cons, hfind]
                cases hcs : cs.find? (fun c => c.name = a) with
                | some c => simp [ih c p', pathIsPrefixOf]
                | none =>
                    have hfresh : ∀ p'', hasPath p'' (FTree.mk a [] "" false false) =
                        decide (p'' = []) := by
                      intro p''
                      cases p'' <;> simp [hasPath_nil, hasPath_cons, List.find?]
                    simp only [ih (FTree.mk a [] "" false false) p', hfresh, pathIsPrefixOf]
                    cases p' <;> simp [pathIsPrefixOf]
              · have hfind := find?_updateNamed_ne e a (setDefaultPath v rest)
                  (setDefaultPath v rest (FTree.mk e [] "" false false)) cs hleaf hae hf
                rw [setDefaultPath, hasPath_cons, hasPath_cons, hfind]
                cases hcs : cs.find? (fun c => c.name = a) with
                | some c => simp [pathIsPrefixOf, hae]
                | none => simp [pathIsPrefixOf, hae]

theorem any_name_iff_find? (cs : List FTree) (e : String) :
    cs.any (fun c => c.name = e) = true ↔
      (cs.find? (fun c => decide (c.name = e))).isSome := by
  rw [List.any_eq_true, List.find?_isSome]

theorem markStopReq_props : ∀ (q : List String) (t : FTree) (p : List String),
    hasPath p (markStopReq q t) = hasPath p t ∧
    rangeAt p (markStopReq q t) = rangeAt p t ∧
    (requiredAt p t = true → requiredAt p (markStopReq q t) = true) := by
  intro q
  induction q with
  | nil =>
      intro t p
      cases t with
      | mk n cs d r g =>
          cases p with
          | nil => simp [markStopReq, hasPath_nil, rangeAt_nil, requiredAt_nil]
          | cons a p' =>
              simp [markStopReq, hasPath_cons, rangeAt_cons, requiredAt_cons]
  | cons e rest ih =>
      intro t p
      cases t with
      | mk n cs d r g =>
          by_cases hany : cs.any (fun c => c.name = e) = true
          · rw [markStopReq, if_pos hany]
            have hleaf : (FTree.mk e [] "" false false).name = e := rfl
            have hf : ∀ c, (markStopReq rest c).name = c.name :=
              fun c => name_markStopReq rest c
            cases p with
            | nil => simp [hasPath_nil, rangeAt_nil, requiredAt_nil]
            | cons a p' =>
                by_cases hae : a = e
                · subst hae
                  have hfind := find?_updateNamed_eq a (markStopReq rest)
                    (FTree.mk a [] "" false false) cs hleaf hf
                  rw [hasPath_cons, rangeAt_cons, requiredAt_cons, hasPath_cons,
                    rangeAt_cons, requiredAt_cons, hfind]
                  cases hcs : cs.find? (fun c => decide (c.name = a)) with
                  | some c => simpa using ih c p'
                  | none =>
                      rw [any_name_iff_find?] at hany
                      rw [hcs] at hany
                      simp at hany
                · have hfind := find?_updateNamed_ne e a (markStopReq rest)
                    (FTree.mk e [] "" false false) cs hleaf hae hf
                  rw [hasPath_cons, rangeAt_cons, requiredAt_cons, hasPath_cons,
                    rangeAt_cons, requiredAt_cons, hfind]
                  exact ⟨rfl, rfl, fun h => h⟩
          · rw [markStopReq, if_neg hany]
            cases p with
            | nil => simp [hasPath_nil, rangeAt_nil, requiredAt_nil]
            | cons a p' =>
                simp [hasPath_cons, rangeAt_cons, requiredAt_cons]

theorem markStopRange_props : ∀ (q : List String) (t : FTree) (p : List String),
    hasPath p (markStopRange q t) = hasPath p t ∧
    requiredAt p (markStopRange q t) = requiredAt p t ∧
    (rangeAt p t = true → rangeAt p (markStopRange q t) = true) := by
  intro q
  induction q with
  | nil =>
      intro t p
      cases t with
      | mk n cs d r g =>
          cases p with
          | nil => simp [markStopRange, hasPath_nil, rangeAt_nil, requiredAt_nil]
          | cons a p' =>
              simp [markStopRange, hasPath_cons, rangeAt_cons, requiredAt_cons]
  | cons e rest ih =>
      intro t p
      cases t with
      | mk n cs d r g =>
          by_cases hany : cs.any (fun c => c.name = e) = true
          · rw [markStopRange, if_pos hany]
            have hleaf : (FTree.mk e [] "" false false).name = e := rfl
            have hf : ∀ c, (markStopRange rest c).name = c.name :=
              fun c => name_markStopRange rest c
            cases p with
            | nil => simp [hasPath_nil, rangeAt_nil, requiredAt_nil]
            | cons a p' =>
                by_cases hae : a = e
                · subst hae
                  have hfind := find?_updateNamed_eq a (markStopRange rest)
                    (FTree.mk a [] "" false false) cs hleaf hf
                  rw [hasPath_cons, rangeAt_cons, requiredAt_cons, hasPath_cons,
                    rangeAt_cons, requiredAt_cons, hfind]
                  cases hcs : cs.find? (fun c => decide (c.name = a)) with
                  | some c => simpa using ih c p'
                  | none =>
                      rw [any_name_iff_find?] at hany
                      rw [hcs] at hany
                      simp at hany
                · have hfind := find?_updateNamed_ne e a (markStopRange rest)
                    (FTree.mk e [] "" false false) cs hleaf hae hf
                  rw [hasPath_cons, rangeAt_cons, requiredAt_cons, hasPath_cons,
                    rangeAt_cons, requiredAt_cons, hfind]
                  exact ⟨rfl, rfl, fun h => h⟩
          · rw [markStopRange, if_neg hany]
            cases p with
            | nil => simp [hasPath_nil, rangeAt_nil, requiredAt_nil]
            | cons a p' =>
                simp [hasPath_cons, rangeAt_cons, requiredAt_cons]

theorem markRequired_props : ∀ (q : List String) (t : FTree) (p : List String),
    hasPath p (markRequired q t) = hasPath p t ∧
    rangeAt p (markRequired q t) = rangeAt p t ∧
    (requiredAt p t = true → requiredAt p (markRequired q t) = true) := by
  intro q t p
  cases q with
  | nil => simp [markRequired]
  | cons e rest =>
      cases t with
      | mk n cs d r g =>
          by_cases hany : cs.any (fun c => c.name = e) = true
          · rw [markRequired, if_pos hany]
            have hleaf : (FTree.mk e [] "" false false).name = e := rfl
            have hf : ∀ c, (markStopReq rest c).name = c.name :=
              fun c => name_markStopReq rest c
            cases p with
            | nil => simp [hasPath_nil, rangeAt_nil, requiredAt_nil]
            | cons a p' =>
                by_cases hae : a = e
                · subst hae
                  have hfind := find?_updateNamed_eq a (markStopReq rest)
                    (FTree.mk a [] "" false false) cs hleaf hf
                  rw [hasPath_cons, rangeAt_cons, requiredAt_cons, hasPath_cons,
                    rangeAt_cons, requiredAt_cons, hfind]
                  cases hcs : cs.find? (fun c => decide (c.name = a)) with
                  | some c => simpa using markStopReq_props rest c p'
                  | none =>
                      rw [any_name_iff_find?] at hany
                      rw [hcs] at hany
                      simp at hany
                · have hfind := find?_updateNamed_ne e a (markStopReq rest)
                    (FTree.mk e [] "" false false) cs hleaf hae hf
                  rw [hasPath_cons, rangeAt_cons, requiredAt_cons, hasPath_cons,
                    rangeAt_cons, requiredAt_cons, hfind]
                  exact ⟨rfl, rfl, fun h => h⟩
          · rw [markRequired, if_neg hany]
            exact ⟨rfl, rfl, fun h => h⟩

theorem markRange_props : ∀ (q : List String) (t : FTree) (p : List String),
    hasPath p (markRange q t) = hasPath p t ∧
    requiredAt p (markRange q t) = requiredAt p t ∧
    (rangeAt p t = true → rangeAt p (markRange q t) = true) := by
  intro q t p
  cases q with
  | nil => simp [markRange]
  | cons e rest =>
      cases t with
      | mk n cs d r g =>
          by_cases hany : cs.any (fun c => c.name = e) = true
          · rw [markRange, if_pos hany]
            have hleaf : (FTree.mk e [] "" false false).name = e := rfl
            have hf : ∀ c, (markStopRange rest c).name = c.name :=
              fun c => name_markStopRange rest c
            cases p with
            | nil => simp [hasPath_nil, rangeAt_nil, requiredAt_nil]
            | cons a p' =>
                by_cases hae : a = e
                · subst hae
                  have hfind := find?_updateNamed_eq a (markStopRange rest)
                    (FTree.mk a [] "" false false) cs hleaf hf
                  rw [hasPath_cons, rangeAt_cons, requiredAt_cons, hasPath_cons,
                    rangeAt_cons, requiredAt_cons, hfind]
                  cases hcs : cs.find? (fun c => decide (c.name = a)) with
                  | some c => simpa using markStopRange_props rest c p'
                  | none =>
                      rw [any_name_iff_find?] at hany
                      rw [hcs] at hany
                      simp at hany
                · have hfind := find?_updateNamed_ne e a (markStopRange rest)
                    (FTree.mk e [] "" false false) cs hleaf hae hf
                  rw [hasPath_cons, rangeAt_cons, requiredAt_cons, hasPath_cons,
                    rangeAt_cons, requiredAt_cons, hfind]
                  exact ⟨rfl, rfl, fun h => h⟩
          · rw [markRange, if_neg hany]
            exact ⟨rfl, rfl, fun h => h⟩

theorem requiredAt_markStopReq_present : ∀ (q : List String) (t : FTree)
    (p : List String), hasPath q t = true →
    requiredAt p (markStopReq q t) = (requiredAt p t || decide (p = q)) := by
  intro q
  induction q with
  | nil =>
      intro t p _
      cases t with
      | mk n cs d r g =>
          cases p with
          | nil => simp [markStopReq, requiredAt_nil]
          | cons a p' => simp [markStopReq, requiredAt_cons]
  | cons e rest ih =>
      intro t p hq
      cases t with
      | mk n cs d r g =>
          rw [hasPath_cons] at hq
          cases hcs : cs.find? (fun c => c.name = e) with
          | none => rw [hcs] at hq; simp at hq
          | some c =>
              rw [hcs] at hq
              have hany : cs.any (fun c => c.name = e) = true := by
                rw [any_name_iff_find?, hcs]; rfl
              rw [markStopReq, if_pos hany]
              have hleaf : (FTree.mk e [] "" false false).name = e := rfl
              have hf : ∀ c, (markStopReq rest c).name = c.name :=
                fun c => name_markStopReq rest c
              cases p with
              | nil => simp [requiredAt_nil]
              | cons a p' =>
                  by_cases hae : a = e
                  · subst hae
                    have hfind := find?_updateNamed_eq a (markStopReq rest)
                      (FTree.mk a [] "" false false) cs hleaf hf
                    rw [requiredAt_cons, requiredAt_cons, hfind, hcs]
                    simp only []
                    by_cases hpr : p' = rest
                    · subst hpr; simp [ih c p' hq]
                    · simp [ih c p' hq, hpr]
                  · have hfind := find?_updateNamed_ne e a (markStopReq rest)
                      (FTree.mk e [] "" false false) cs hleaf hae hf
                    rw [requiredAt_cons, requiredAt_cons, hfind]
                    simp [hae]

theorem requiredAt_markRequired_present : ∀ (q : List String) (t : FTree)
    (p : List String), hasPath q t = true →
    requiredAt p (markRequired q t) =
      (requiredAt p t || (decide (p = q) && decide (q ≠ []))) := by
  intro q t p hq
  cases q with
  | nil => simp [markRequired]
  | cons e rest =>
      cases t with
      | mk n cs d r g =>
          rw [hasPath_cons] at hq
          cases hcs : cs.find? (fun c => c.name = e) with
          | none => rw [hcs] at hq; simp at hq
          | some c =>
              rw [hcs] at hq
              have hany : cs.any (fun c => c.name = e) = true := by
                rw [any_name_iff_find?, hcs]; rfl
              rw [markRequired, if_pos hany]
              have hleaf : (FTree.mk e [] "" false false).name = e := rfl
              have hf : ∀ c, (markStopReq rest c).name = c.name :=
                fun c => name_markStopReq rest c
              cases p with
              | nil => simp [requiredAt_nil]
              | cons a p' =>
                  by_cases hae : a = e
                  · subst hae
                    have hfind := find?_updateNamed_eq a (markStopReq rest)
                      (FTree.mk a [] "" false false) cs hleaf hf
                    rw [requiredAt_cons, requiredAt_cons, hfind, hcs]
                    simp only []
                    by_cases hpr : p' = rest
                    · subst hpr
                      simp [requiredAt_markStopReq_present p' c p' hq]
                    · simp [requiredAt_markStopReq_present rest c p' hq, hpr]
                  · have hfind := find?_updateNamed_ne e a (markStopReq rest)
                      (FTree.mk e [] "" false false) cs hleaf hae hf
                    rw [requiredAt_cons, requiredAt_cons, hfind]
                    simp [hae]

theorem rangeAt_markStopRange_present : ∀ (q : List String) (t : FTree)
    (p : List String), hasPath q t = true →
    rangeAt p (markStopRange q t) = (rangeAt p t || decide (p = q)) := by
  intro q
  induction q with
  | nil =>
      intro t p _
      cases t with
      | mk n cs d r g =>
          cases p with
          | nil => simp [markStopRange, rangeAt_nil]
          | cons a p' => simp [markStopRange, rangeAt_cons]
  | cons e rest ih =>
      intro t p hq
      cases t with
      | mk n cs d r g =>
          rw [hasPath_cons] at hq
          cases hcs : cs.find? (fun c => c.name = e) with
          | none => rw [hcs] at hq; simp at hq
          | some c =>
              rw [hcs] at hq
              have hany : cs.any (fun c => c.name = e) = true := by
                rw [any_name_iff_find?, hcs]; rfl
              rw [markStopRange, if_pos hany]
              have hleaf : (FTree.mk e [] "" false false).name = e := rfl
              have hf : ∀ c, (markStopRange rest c).name = c.name :=
                fun c => name_markStopRange rest c
              cases p with
              | nil => simp [rangeAt_nil]
              | cons a p' =>
                  by_cases hae : a = e
                  · subst hae
                    have hfind := find?_updateNamed_eq a (markStopRange rest)
                      (FTree.mk a [] "" false false) cs hleaf hf
                    rw [rangeAt_cons, rangeAt_cons, hfind, hcs]
                    simp only []
                    by_cases hpr : p' = rest
                    · subst hpr; simp [ih c p' hq]
                    · simp [ih c p' hq, hpr]
                  · have hfind := find?_updateNamed_ne e a (markStopRange rest)
                      (FTree.mk e [] "" false false) cs hleaf hae hf
                    rw [rangeAt_cons, rangeAt_cons, hfind]
                    simp [hae]

theorem rangeAt_markRange_present : ∀ (q : List String) (t : FTree)
    (p : List String), hasPath q t = true →
    rangeAt p (markRange q t) =
      (rangeAt p t || (decide (p = q) && decide (q ≠ []))) := by
  intro q t p hq
  cases q with
  | nil => simp [markRange]
  | cons e rest =>
      cases t with
      | mk n cs d r g =>
          rw [hasPath_cons] at hq
          cases hcs : cs.find? (fun c => c.name = e) with
          | none => rw [hcs] at hq; simp at hq
          | some c =>
              rw [hcs] at hq
              have hany : cs.any (fun c => c.name = e) = true := by
                rw [any_name_iff_find?, hcs]; rfl
              rw [markRange, if_pos hany]
              have hleaf : (FTree.mk e [] "" false false).name = e := rfl
              have hf : ∀ c, (markStopRange rest c).name = c.name :=
                fun c => name_markStopRange rest c
              cases p with
              | nil => simp [rangeAt_nil]
              | cons a p' =>
                  by_cases hae : a = e
                  · subst hae
                    have hfind := find?_updateNamed_eq a (markStopRange rest)
                      (FTree.mk a [] "" false false) cs hleaf hf
                    rw [rangeAt_cons, rangeAt_cons, hfind, hcs]
                    simp only []
                    by_cases hpr : p' = rest
                    · subst hpr
                      simp [rangeAt_markStopRange_present p' c p' hq]
                    · simp [rangeAt_markStopRange_present rest c p' hq, hpr]
                  · have hfind := find?_updateNamed_ne e a (markStopRange rest)
                      (FTree.mk e [] "" false false) cs hleaf hae hf
                    rw [rangeAt_cons, rangeAt_cons, hfind]
                    simp [hae]

theorem foldInsert_props : ∀ (refs : List (List String)) (t : FTree)
    (p : List String),
    requiredAt p (refs.foldl (fun t r => insertPath r t) t) = requiredAt p t ∧
    rangeAt p (refs.foldl (fun t r => insertPath r t) t) = rangeAt p t ∧
    hasPath p (refs.foldl (fun t r => insertPath r t) t) =
      (hasPath p t || refs.any (fun r => pathIsPrefixOf p r)) := by
  intro refs
  induction refs with
  | nil => intro t p; simp
  | cons q rest ih =>
      intro t p
      obtain ⟨h1, h2, h3⟩ := ih (insertPath q t) p
      simp only [List.foldl_cons, List.any_cons]
      refine ⟨?_, ?_, ?_⟩
      · rw [h1, (flags_insertPath q t p).1]
      · rw [h2, (flags_insertPath q t p).2]
      · rw [h3, hasPath_insertPath q t p]
        cases hasPath p t <;> cases pathIsPrefixOf p q <;> simp

theorem foldSetDefault_props : ∀ (defs : List (List String × String))
    (t : FTree) (p : List String),
    requiredAt p (defs.foldl (fun t d => setDefaultPath d.2 d.1 t) t) =
      requiredAt p t ∧
    rangeAt p (defs.foldl (fun t d => setDefaultPath d.2 d.1 t) t) =
      rangeAt p t ∧
    hasPath p (defs.foldl (fun t d => setDefaultPath d.2 d.1 t) t) =
      (hasPath p t || defs.any (fun d => pathIsPrefixOf p d.1)) := by
  intro defs
  induction defs with
  | nil => intro t p; simp
  | cons q rest ih =>
      intro t p
      obtain ⟨h1, h2, h3⟩ := ih (setDefaultPath q.2 q.1 t) p
      simp only [List.foldl_cons, List.any_cons]
      refine ⟨?_, ?_, ?_⟩
      · rw [h1, (flags_setDefaultPath q.2 q.1 t p).1]
      · rw [h2, (flags_setDefaultPath q.2 q.1 t p).2]
      · rw [h3, hasPath_setDefaultPath q.2 q.1 t p]
        cases hasPath p t <;> cases pathIsPrefixOf p q.1 <;> simp

theorem foldMarkReq_props : ∀ (reqs : List (List String)) (t : FTree)
    (p : List String),
    hasPath p (reqs.foldl (fun t r => markRequired r t) t) = hasPath p t ∧
    rangeAt p (reqs.foldl (fun t r => markRequired r t) t) = rangeAt p t := by
  intro reqs
  induction reqs with
  | nil => intro t p; exact ⟨rfl, rfl⟩
  | cons q rest ih =>
      intro t p
      obtain ⟨h1, h2⟩ := ih (markRequired q t) p
      obtain ⟨m1, m2, _⟩ := markRequired_props q t p
      simp only [List.foldl_cons]
      exact ⟨h1.trans m1, h2.trans m2⟩

theorem foldMarkRange_props : ∀ (rgs : List (List String)) (t : FTree)
    (p : List String),
    hasPath p (rgs.foldl (fun t r => markRange r t) t) = hasPath p t ∧
    requiredAt p (rgs.foldl (fun t r => markRange r t) t) = requiredAt p t := by
  intro rgs
  induction rgs with
  | nil => intro t p; exact ⟨rfl, rfl⟩
  | cons q rest ih =>
      intro t p
      obtain ⟨h1, h2⟩ := ih (markRange q t) p
      obtain ⟨m1, m2, _⟩ := markRange_props q t p
      simp only [List.foldl_cons]
      exact ⟨h1.trans m1, h2.trans m2⟩

theorem foldMarkReq_present : ∀ (reqs : List (List String)) (t : FTree)
    (p : List String), (∀ q ∈ reqs, hasPath q t = true) →
    requiredAt p (reqs.foldl (fun t r => markRequired r t) t) =
      (requiredAt p t ||
        reqs.any (fun q => decide (p = q) && decide (q ≠ []))) := by
  intro reqs
  induction reqs with
  | nil => intro t p _; simp
  | cons q rest ih =>
      intro t p hall
      have hq : hasPath q t = true := hall q (List.mem_cons_self q rest)
      have hall2 : ∀ r ∈ rest, hasPath r (markRequired q t) = true := by
        intro r hm
        rw [(markRequired_props q t r).1]
        exact hall r (List.mem_cons_of_mem q hm)
      simp only [List.foldl_cons, List.any_cons]
      rw [ih (markRequired q t) p hall2,
        requiredAt_markRequired_present q t p hq, Bool.or_assoc]

theorem foldMarkRange_present : ∀ (rgs : List (List String)) (t : FTree)
    (p : List String), (∀ q ∈ rgs, hasPath q t = true) →
    rangeAt p (rgs.foldl (fun t r => markRange r t) t) =
      (rangeAt p t ||
        rgs.any (fun q => decide (p = q) && decide (q ≠ []))) := by
  intro rgs
  induction rgs with
  | nil => intro t p _; simp
  | cons q rest ih =>
      intro t p hall
      have hq : hasPath q t = true := hall q (List.mem_cons_self q rest)
      have hall2 : ∀ r ∈ rest, hasPath r (markRange q t) = true := by
        intro r hm
        rw [(markRange_props q t r).1]
        exact hall r (List.mem_cons_of_mem q hm)
      simp only [List.foldl_cons, List.any_cons]
      rw [ih (markRange q t) p hall2,
        rangeAt_markRange_present q t p hq, Bool.or_assoc]

theorem hasPath_emptyRoot (p : List String) :
    hasPath p emptyRoot = decide (p = []) := by
  cases p <;> simp [emptyRoot, hasPath_nil, hasPath_cons, List.find?]

theorem flags_emptyRoot (p : List String) :
    requiredAt p emptyRoot = false ∧ rangeAt p emptyRoot = false :=
  flags_fresh p ""

theorem buildFieldTree_chars (refs : List (List String))
    (defs : List (List String × String)) (reqs rgs : List (List String))
    (p : List String)
    (hreq : ∀ q ∈ reqs, hasPath q (buildFieldTree refs defs [] []) = true)
    (hrg : ∀ q ∈ rgs, hasPath q (buildFieldTree refs defs [] []) = true) :
    hasPath p (buildFieldTree refs defs reqs rgs) =
      (decide (p = []) || refs.any (fun r => pathIsPrefixOf p r) ||
        defs.any (fun d => pathIsPrefixOf p d.1)) ∧
    requiredAt p (buildFieldTree refs defs reqs rgs) =
      reqs.any (fun q => decide (p = q) && decide (q ≠ [])) ∧
    rangeAt p (buildFieldTree refs defs reqs rgs) =
      rgs.any (fun q => decide (p = q) && decide (q ≠ [])) := by
  simp only [buildFieldTree, List.foldl_nil] at hreq hrg ⊢
  refine ⟨?_, ?_, ?_⟩
  · rw [(foldMarkRange_props rgs _ p).1, (foldMarkReq_props reqs _ p).1,
      (foldSetDefault_props defs _ p).2.2, (foldInsert_props refs _ p).2.2,
      hasPath_emptyRoot]
  · rw [(foldMarkRange_props rgs _ p).2,
      foldMarkReq_present reqs _ p hreq,
      (foldSetDefault_props defs _ p).1, (foldInsert_props refs _ p).1,
      (flags_emptyRoot p).1]
    simp
  · have hrg2 : ∀ q ∈ rgs,
        hasPath q (reqs.foldl (fun t r => markRequired r t)
          (defs.foldl (fun t d => setDefaultPath d.2 d.1 t)
            (refs.foldl (fun t r => insertPath r t) emptyRoot))) = true := by
      intro q hm
      rw [(foldMarkReq_props reqs _ q).1]
      exact hrg q hm
    rw [foldMarkRange_present rgs _ p hrg2,
      (foldMarkReq_props reqs _ p).2,
      (foldSetDefault_props defs _ p).2.1, (foldInsert_props refs _ p).2.1,
      (flags_emptyRoot p).2]
    simp

/-! ## Claim C3 -/

/-- Claim C3 counterexample: `buildFieldTree` is not monotonic in the
claimed sense.  With references `[["a"]]` and required mark `["a","b"]`,
the mark walk stops at the deepest existing node and sets `required`
there: node `a` is marked.  Extending the reference list with `["a","b"]`
makes the walk reach `["a","b"]`, so node `a` is no longer marked — the
`required` flag at `["a"]` changes from `true` back to `false` when a
reference is added. -/
theorem c3_counterexample :
    requiredAt ["a"] (buildFieldTree [["a"]] [] [["a", "b"]] []) = true ∧
    requiredAt ["a", "b"] (buildFieldTree [["a"]] [] [["a", "b"]] []) = false ∧
    requiredAt ["a"] (buildFieldTree [["a"], ["a", "b"]] [] [["a", "b"]] []) = false ∧
    requiredAt ["a", "b"] (buildFieldTree [["a"], ["a", "b"]] [] [["a", "b"]] []) = true := by
  decide

/-- Claim C3 (amended): `buildFieldTree` monotonicity holds in the
following form.  Extending the reference, default, required or range
lists never removes a path from the resulting tree (unconditionally),
and when every required/range mark names a path already present among
the inserted references and defaults — the regime in which the mark
walks land on their nominated nodes — the `required` and `isRange`
flags only ever change from `false` to `true` under extension. -/
theorem c3_amended (refs refs2 : List (List String))
    (defs defs2 : List (List String × String))
    (reqs reqs2 rgs rgs2 : List (List String)) (p : List String)
    (hreq1 : ∀ q ∈ reqs, hasPath q (buildFieldTree refs defs [] []) = true)
    (hrg1 : ∀ q ∈ rgs, hasPath q (buildFieldTree refs defs [] []) = true)
    (hreq2 : ∀ q ∈ reqs ++ reqs2,
      hasPath q (buildFieldTree (refs ++ refs2) (defs ++ defs2) [] []) = true)
    (hrg2 : ∀ q ∈ rgs ++ rgs2,
      hasPath q (buildFieldTree (refs ++ refs2) (defs ++ defs2) [] []) = true) :
    (hasPath p (buildFieldTree refs defs reqs rgs) = true →
      hasPath p (buildFieldTree (refs ++ refs2) (defs ++ defs2)
        (reqs ++ reqs2) (rgs ++ rgs2)) = true) ∧
    (requiredAt p (buildFieldTree refs defs reqs rgs) = true →
      requiredAt p (buildFieldTree (refs ++ refs2) (defs ++ defs2)
        (reqs ++ reqs2) (rgs ++ rgs2)) = true) ∧
    (rangeAt p (buildFieldTree refs defs reqs rgs) = true →
      rangeAt p (buildFieldTree (refs ++ refs2) (defs ++ defs2)
        (reqs ++ reqs2) (rgs ++ rgs2)) = true) := by
  obtain ⟨hP1, hR1, hG1⟩ := buildFieldTree_chars refs defs reqs rgs p hreq1 hrg1
  obtain ⟨hP2, hR2, hG2⟩ := buildFieldTree_chars (refs ++ refs2) (defs ++ defs2)
    (reqs ++ reqs2) (rgs ++ rgs2) p hreq2 hrg2
  refine ⟨?_, ?_, ?_⟩
  · intro h
    rw [hP1] at h
    rw [hP2]
    simp only [List.any_append, Bool.or_eq_true] at h ⊢
    tauto
  · intro h
    rw [hR1] at h
    rw [hR2]
    simp only [List.any_append, Bool.or_eq_true] at h ⊢
    tauto
  · intro h
    rw [hG1] at h
    rw [hG2]
    simp only [List.any_append, Bool.or_eq_true] at h ⊢
    tauto

/-- Concrete instantiation of the amended C3 monotonicity theorem. -/
theorem c3_amended_witness :
    requiredAt ["a"] (buildFieldTree ([["a"]] ++ [["b"]]) ([] ++ [])
      ([["a"]] ++ [["b"]]) ([] ++ [])) = true :=
  (c3_amended [["a"]] [["b"]] [] [] [["a"]] [["b"]] [] [] ["a"]
    (by decide) (by decide) (by decide) (by decide)).2.1 (by decide)

/-! ## Claim C8 -/

theorem foldl_append_map {α β : Type} (f : α → β) :
    ∀ (l : List α) (init : List β),
      l.foldl (fun acc ch => acc ++ [f ch]) init = init ++ l.map f := by
  intro l
  induction l with
  | nil => intro init; simp
  | cons c cs ih => intro init; simp [ih]

/-- Claim C8 counterexample: the source `helperToCUEName` keeps uppercase
letters, while the claim (and spec) say only lowercase letters and digits
are kept and everything else becomes `_`.  On the name `My.Helper` the
source yields `_My_Helper`; the claimed transformation yields
`__y__elper`. -/
theorem c8_counterexample :
    helperToCUEName "My.Helper" = "_My_Helper" ∧
    specHelperToCUEName "My.Helper" = "__y__elper" ∧
    helperToCUEName "My.Helper" ≠ specHelperToCUEName "My.Helper" := by
  decide

/-- Claim C8 (amended): the CUE hidden field name is `_` followed by the
name transformed character by character, where letters of BOTH cases and
digits are kept and every other character becomes `_`
(`helperNameChar`). -/
theorem c8_amended (name : String) :
    helperToCUEName name = ⟨'_' :: name.data.map helperNameChar⟩ := by
  rw [helperToCUEName, foldl_append_map]
  rfl

/-! ## Claim C10 -/

theorem inlineExpr_quoted (t : String) : inlineExpr ("\"" ++ t ++ "\"") = t := by
  have hd : ("\"" ++ t ++ "\"").data = '"' :: (t.data ++ ['"']) := by
    simp [String.data_append]
  have hcond : 2 ≤ ("\"" ++ t ++ "\"").data.length ∧
      ("\"" ++ t ++ "\"").data.head? = some '"' ∧
      ("\"" ++ t ++ "\"").data.getLast? = some '"' := by
    rw [hd]
    refine ⟨by simp, rfl, ?_⟩
    rw [← List.cons_append, List.getLast?_concat]
  rw [inlineExpr, if_pos hcond, hd]
  simp

/-- Claim C10 (confirmed): an already-quoted CUE string literal is
spliced into the interpolation with its surrounding quotes dropped, any
other expression is wrapped as an interpolation hole, and in inline
accumulation mode `emitActionExpr` appends exactly `inlineExpr expr` to
the accumulated parts. -/
theorem c10_inline_interpolation (t e expr comment : String)
    (st : EmitterState) (ps : List String)
    (hnq : e.data.head? ≠ some '"' ∨ e.data.getLast? ≠ some '"' ∨
      e.data.length < 2)
    (hflow : st.flowParts = none) (hinl : st.inlineParts = some ps) :
    inlineExpr ("\"" ++ t ++ "\"") = t ∧
    inlineExpr e = "\\(" ++ e ++ ")" ∧
    emitActionExpr st expr comment =
      { st with inlineParts := some (ps ++ [inlineExpr expr]) } := by
  refine ⟨inlineExpr_quoted t, ?_, ?_⟩
  · rw [inlineExpr, if_neg]
    intro ⟨h1, h2, h3⟩
    rcases hnq with h | h | h
    · exact h h2
    · exact h h3
    · omega
  · rw [emitActionExpr, hflow]
    simp only []
    rw [hinl]

/-- Concrete instantiation of the C10 inline-interpolation theorem. -/
theorem c10_witness :
    inlineExpr ("\"" ++ "abc" ++ "\"") = "abc" ∧
    inlineExpr "x.y" = "\\(" ++ "x.y" ++ ")" ∧
    emitActionExpr { initEmitter with inlineParts := some ["p"] } "x.y" "" =
      { initEmitter with
          inlineParts := some (["p"] ++ [inlineExpr "x.y"]) } :=
  c10_inline_interpolation "abc" "x.y" "x.y" ""
    { initEmitter with inlineParts := some ["p"] } ["p"]
    (by decide) rfl rfl

/-! ## Claim C4 -/

theorem closeStack_nonneg : ∀ (fs : List Frame) (out : String) (indent : Int),
    0 ≤ indent →
    closeStack indent fs out =
      (fs.dropWhile (fun f => indent < f.yamlIndent),
       (fs.takeWhile (fun f => indent < f.yamlIndent)).foldl
         (fun acc f => acc ++ closeFrameText f) out) := by
  intro fs
  induction fs with
  | nil => intro out indent h; rfl
  | cons top rest ih =>
      intro out indent h
      rw [closeStack]
      by_cases htop : top.yamlIndent ≤ indent
      · rw [if_pos ⟨h, htop⟩]
        have hdec : (decide (indent < top.yamlIndent)) = false := by
          simp
          omega
        simp [List.dropWhile_cons, List.takeWhile_cons, hdec]
      · rw [if_neg (by intro hc; exact htop hc.2)]
        rw [ih (out ++ closeFrameText top) indent h]
        have hdec : (decide (indent < top.yamlIndent)) = true := by
          simp
          omega
        simp [List.dropWhile_cons, List.takeWhile_cons, hdec]

theorem closeStack_neg : ∀ (fs : List Frame) (out : String) (indent : Int),
    indent < 0 →
    closeStack indent fs out =
      ([], fs.foldl (fun acc f => acc ++ closeFrameText f) out) := by
  intro fs
  induction fs with
  | nil => intro out indent h; rfl
  | cons top rest ih =>
      intro out indent h
      rw [closeStack, if_neg (by intro hc; omega), ih (out ++ closeFrameText top) indent h]
      rfl

/-- Claim C4 counterexample: a frame whose `yamlIndent` EQUALS the
line's indent survives `closeBlocksTo` — the source loop closes only
frames with `yamlIndent > indent` (strictly), while the claim says
frames with `yaml_indent ≥ line_indent` are closed. -/
theorem c4_counterexample :
    (closeBlocksTo 2 { initEmitter with
        stack := [⟨2, 1, false, false⟩] }).stack = [⟨2, 1, false, false⟩] ∧
    (closeBlocksTo 2 { initEmitter with
        stack := [⟨2, 1, false, false⟩] }).out = "" :=
  ⟨rfl, rfl⟩

/-- Claim C4 (amended): for a non-negative indent, `closeBlocksTo`
closes exactly the maximal top run of frames whose `yamlIndent` is
STRICTLY greater than the indent (emitting their close texts in order),
leaving the remaining stack; a negative indent closes every frame. -/
theorem c4_amended (indent : Int) (st : EmitterState) :
    (0 ≤ indent →
      (closeBlocksTo indent st).stack =
        st.stack.dropWhile (fun f => indent < f.yamlIndent) ∧
      (closeBlocksTo indent st).out =
        (st.stack.takeWhile (fun f => indent < f.yamlIndent)).foldl
          (fun acc f => acc ++ closeFrameText f) st.out) ∧
    (indent < 0 →
      (closeBlocksTo indent st).stack = [] ∧
      (closeBlocksTo indent st).out =
        st.stack.foldl (fun acc f => acc ++ closeFrameText f) st.out) := by
  constructor
  · intro h
    simp only [closeBlocksTo]
    rw [closeStack_nonneg st.stack st.out indent h]
    exact ⟨rfl, rfl⟩
  · intro h
    simp only [closeBlocksTo]
    rw [closeStack_neg st.stack st.out indent h]
    exact ⟨rfl, rfl⟩

/-- Concrete instantiation of the amended C4 theorem. -/
theorem c4_witness :
    (closeBlocksTo 2 { initEmitter with
        stack := [⟨3, 2, false, false⟩, ⟨1, 1, false, false⟩] }).stack =
      [⟨1, 1, false, false⟩] ∧
    (closeBlocksTo (-1) { initEmitter with
        stack := [⟨3, 2, false, false⟩] }).stack = [] := by
  constructor
  · have h := (c4_amended 2 { initEmitter with
      stack := [⟨3, 2, false, false⟩, ⟨1, 1, false, false⟩] }).1 (by decide)
    rw [h.1]
    rfl
  · have h := (c4_amended (-1) { initEmitter with
      stack := [⟨3, 2, false, false⟩] }).2 (by decide)
    exact h.1

/-! ## Claim C2 -/

theorem finalizeInline_effect (st : EmitterState) :
    (finalizeInline st).stack = st.stack ∧
    ∃ a, (finalizeInline st).out = st.out ++ a := by
  cases hv : st.inlineParts with
  | none => exact ⟨by simp [finalizeInline, hv], "", by simp [finalizeInline, hv]⟩
  | some ps =>
      refine ⟨by simp [finalizeInline, hv], ?_⟩
      simp only [finalizeInline, hv, String.append_assoc]
      exact ⟨_, rfl⟩

theorem finalizeFlow_effect (E : ExtFns) (st : EmitterState) :
    (finalizeFlow E st).stack = st.stack ∧
    ∃ a, (finalizeFlow E st).out = st.out ++ a := by
  cases hv : st.flowParts with
  | none => exact ⟨by simp [finalizeFlow, hv], "", by simp [finalizeFlow, hv]⟩
  | some ps =>
      refine ⟨by simp [finalizeFlow, hv], ?_⟩
      simp only [finalizeFlow, hv, String.append_assoc]
      exact ⟨_, rfl⟩

theorem flushPendingAction_effect (st : EmitterState) :
    (flushPendingAction st).stack = st.stack ∧
    ∃ a, (flushPendingAction st).out = st.out ++ a := by
  by_cases hv : st.pendingActionExpr = ""
  · exact ⟨by simp [flushPendingAction, hv], "", by simp [flushPendingAction, hv]⟩
  · refine ⟨by simp [flushPendingAction, hv], ?_⟩
    simp only [flushPendingAction, if_neg hv, String.append_assoc]
    exact ⟨_, rfl⟩

theorem flushDeferred_effect (st : EmitterState) :
    (flushDeferred st).stack = st.stack ∧
    ∃ a, (flushDeferred st).out = st.out ++ a := by
  cases hv : st.deferredKV with
  | none => exact ⟨by simp [flushDeferred, hv], "", by simp [flushDeferred, hv]⟩
  | some d =>
      refine ⟨by simp [flushDeferred, hv], ?_⟩
      simp only [flushDeferred, hv, String.append_assoc]
      exact ⟨_, rfl⟩

/-- Claim C2 (confirmed): at end of input every frame still on the stack
is closed exactly once — `finalizeEmitter` leaves an empty stack, and
its output is the pre-close output (the original output plus whatever
the four flushes emitted) followed by one close text per stacked frame
in top-down order; for every frame with `cueIndent ≥ 1` (the invariant
under which frames are pushed) that close text is `]`, `},` or `}`
at indent `cueIndent - 1`. -/
theorem c2_frames_closed (E : ExtFns) (st : EmitterState)
    (hind : ∀ f ∈ st.stack, 1 ≤ f.cueIndent) :
    (finalizeEmitter E st).stack = [] ∧
    (∃ mid, (finalizeEmitter E st).out =
      st.stack.foldl (fun acc f => acc ++ closeFrameText f) (st.out ++ mid)) ∧
    (∀ f ∈ st.stack, closeFrameText f =
      writeIndent (f.cueIndent - 1) ++
        (if f.isList then "]\n" else if f.isListItem then "\x7d,\n"
          else "\x7d\n")) := by
  obtain ⟨s1, a1, ho1⟩ := finalizeInline_effect st
  obtain ⟨s2, a2, ho2⟩ := finalizeFlow_effect E (finalizeInline st)
  obtain ⟨s3, a3, ho3⟩ :=
    flushPendingAction_effect (finalizeFlow E (finalizeInline st))
  obtain ⟨s4, a4, ho4⟩ :=
    flushDeferred_effect (flushPendingAction (finalizeFlow E (finalizeInline st)))
  have hstack4 :
      (flushDeferred (flushPendingAction (finalizeFlow E
        (finalizeInline st)))).stack = st.stack := by
    rw [s4, s3, s2, s1]
  have hout4 :
      (flushDeferred (flushPendingAction (finalizeFlow E
        (finalizeInline st)))).out = st.out ++ (a1 ++ (a2 ++ (a3 ++ a4))) := by
    rw [ho4, ho3, ho2, ho1]
    simp [String.append_assoc]
  refine ⟨?_, ⟨a1 ++ (a2 ++ (a3 ++ a4)), ?_⟩, ?_⟩
  · simp only [finalizeEmitter, closeBlocksTo]
    rw [closeStack_neg _ _ (-1) (by norm_num)]
  · simp only [finalizeEmitter, closeBlocksTo]
    rw [closeStack_neg _ _ (-1) (by norm_num)]
    rw [hstack4, hout4]
  · intro f hf
    have h1 := hind f hf
    simp only [closeFrameText]
    rw [if_neg (by omega)]

/-- Concrete instantiation of the C2 end-of-input closing theorem. -/
theorem c2_witness :
    (finalizeEmitter ⟨fun s _ => s, fun s => s⟩
      { initEmitter with stack := [⟨0, 1, false, false⟩] }).stack = [] :=
  (c2_frames_closed ⟨fun s _ => s, fun s => s⟩
    { initEmitter with stack := [⟨0, 1, false, false⟩] } (by decide)).1

/-! ## Claim C5 -/

theorem printfLoop_ok : ∀ (n : Nat) (fmt : List Char), fmt.length ≤ n →
    ∀ (st : ConvState) (args : List PArg) (i : Nat) (acc h : String)
    (r : String × String × ConvState),
    printfLoop st fmt args i acc h = .ok r →
    (∃ mid, r.1 = "\"" ++ mid ++ "\"") ∧ printfVerbsCount fmt ≤ args.length := by
  intro n
  induction n with
  | zero =>
      intro fmt hlen st args i acc h r hok
      have hfmt : fmt = [] := List.eq_nil_of_length_eq_zero (Nat.le_zero.mp hlen)
      subst hfmt
      rw [printfLoop] at hok
      refine ⟨⟨acc, ?_⟩, Nat.zero_le _⟩
      simp only [Except.ok.injEq] at hok
      rw [← hok]
  | succ m ih =>
      intro fmt hlen st args i acc h r hok
      rcases fmt with _ | ⟨c, _ | ⟨v, rest2⟩⟩
      · rw [printfLoop] at hok
        refine ⟨⟨acc, ?_⟩, Nat.zero_le _⟩
        simp only [Except.ok.injEq] at hok
        rw [← hok]
      · rw [printfLoop] at hok
        refine ⟨?_, Nat.zero_le _⟩
        by_cases hc : c = '%'
        · rw [if_pos hc] at hok
          simp only [Except.ok.injEq] at hok
          exact ⟨acc ++ "%", by rw [← hok]⟩
        · rw [if_neg hc] at hok
          simp only [Except.ok.injEq] at hok
          exact ⟨acc ++ printfPiece c, by rw [← hok]⟩
      · rw [printfLoop] at hok
        rw [printfVerbsCount]
        by_cases hc : c = '%'
        · rw [if_pos hc] at hok
          rw [if_pos hc]
          by_cases hsup : v = 's' ∨ v = 'd' ∨ v = 'v'
          · rw [if_pos hsup] at hok
            rw [if_pos hsup]
            cases args with
            | nil => simp at hok
            | cons a more =>
                simp only [List.head?_cons, List.tail_cons] at hok
                cases hne : nodeToExpr st a with
                | error e => rw [hne] at hok; simp at hok
                | ok t =>
                    obtain ⟨expr, obj, st1⟩ := t
                    rw [hne] at hok
                    simp only [] at hok
                    have hlen2 : rest2.length ≤ m := by
                      simp only [List.length_cons] at hlen
                      omega
                    have hr := ih rest2 hlen2 st1 more (i + 1) _ _ r hok
                    refine ⟨hr.1, ?_⟩
                    simp only [List.length_cons]
                    omega
          · rw [if_neg hsup] at hok
            rw [if_neg hsup]
            by_cases hpct : v = '%'
            · rw [if_pos hpct] at hok
              have hlen2 : rest2.length ≤ m := by
                simp only [List.length_cons] at hlen
                omega
              exact ih rest2 hlen2 st args i _ h r hok
            · rw [if_neg hpct] at hok
              simp at hok
        · rw [if_neg hc] at hok
          rw [if_neg hc]
          have hlen2 : (v :: rest2).length ≤ m := by
            simp only [List.length_cons] at hlen ⊢
            omega
          exact ih (v :: rest2) hlen2 st args i _ h r hok

/-- Claim C5 counterexample: surplus printf arguments are NOT an error —
the source loop simply ignores value arguments beyond those consumed by
the verbs.  `printf "%s" "a" "b"` (one consuming verb, two arguments)
converts successfully. -/
theorem c5_counterexample :
    ((convertPrintf (initConv [] none "") [.str "%s", .str "a", .str "b"]).toOption.map
      (fun t => t.1)) = some "\"\\(\"a\")\"" ∧
    printfVerbsCount "%s".data = 1 ∧
    [PArg.str "a", PArg.str "b"].length = 2 :=
  ⟨rfl, rfl, rfl⟩

/-- Claim C5 (amended): the printf format string is parsed at conversion
time; a successful conversion is always a single CUE interpolated string
(quoted form), and implies the format's consuming verbs (`%s`, `%d`,
`%v`) number at most the value arguments — so too FEW arguments always
fail; a verb other than `%s`, `%d`, `%v`, `%%` fails with the
unsupported-verb error.  (Too MANY arguments are silently ignored, see
the counterexample.) -/
theorem c5_printf (st : ConvState) (f : String) (vargs : List PArg)
    (r : String × String × ConvState) (v : Char) (rest : List Char)
    (hok : convertPrintf st (.str f :: vargs) = .ok r)
    (hbad : ¬(v = 's' ∨ v = 'd' ∨ v = 'v') ∧ v ≠ '%') :
    (∃ mid, r.1 = "\"" ++ mid ++ "\"") ∧
    printfVerbsCount f.data ≤ vargs.length ∧
    printfLoop st ('%' :: v :: rest) vargs 0 "" "" =
      .error ("printf: unsupported format verb %" ++ (⟨[v]⟩ : String)) := by
  rw [convertPrintf] at hok
  have hr := printfLoop_ok f.data.length f.data (Nat.le_refl _) st vargs 0 "" "" r hok
  refine ⟨hr.1, hr.2, ?_⟩
  rw [printfLoop, if_pos rfl, if_neg hbad.1, if_neg hbad.2]

/-- Concrete instantiation of the amended C5 printf theorem. -/
theorem c5_witness :
    (∃ mid, (("\"\\(\"a\")\"", "", initConv [] none "") :
        String × String × ConvState).1 = "\"" ++ mid ++ "\"") ∧
    printfVerbsCount "%s".data ≤ [PArg.str "a"].length ∧
    printfLoop (initConv [] none "") ('%' :: 'x' :: []) [PArg.str "a"] 0 "" "" =
      .error ("printf: unsupported format verb %" ++ (⟨['x']⟩ : String)) :=
  c5_printf (initConv [] none "") "%s" [PArg.str "a"]
    ("\"\\(\"a\")\"", "", initConv [] none "") 'x' [] rfl (by decide)

/-! ## Claim C6 -/

theorem listStartsWith_append : ∀ (p t : List Char), listStartsWith (p ++ t) p = true := by
  intro p
  induction p with
  | nil => intro t; cases t <;> rfl
  | cons c cs ih => intro t; simp [listStartsWith, ih]

theorem containsList_self_append (sub t : List Char) :
    containsList sub (sub ++ t) = true := by
  cases sub with
  | nil => cases t <;> simp [containsList, listStartsWith]
  | cons c cs =>
      rw [List.cons_append, containsList]
      have h := listStartsWith_append (c :: cs) t
      rw [List.cons_append] at h
      rw [h]
      rfl

theorem containsList_cons (sub : List Char) (c : Char) (s : List Char)
    (h : containsList sub s = true) : containsList sub (c :: s) = true := by
  cases s with
  | nil =>
      cases sub with
      | nil => simp [containsList, listStartsWith]
      | cons x xs => simp [containsList, listStartsWith] at h
  | cons d ds =>
      rw [containsList, h]
      simp

theorem containsList_append_left : ∀ (pre sub s : List Char),
    containsList sub s = true → containsList sub (pre ++ s) = true := by
  intro pre
  induction pre with
  | nil => intro sub s h; simpa using h
  | cons c cs ih => intro sub s h; exact containsList_cons _ c _ (ih sub s h)

theorem strContains_middle (a name b : String) :
    strContains (a ++ name ++ b) name = true := by
  rw [strContains]
  have hd : (a ++ name ++ b).data = a.data ++ (name.data ++ b.data) := by
    simp [String.data_append]
  rw [hd]
  exact containsList_append_left a.data name.data _
    (containsList_self_append name.data b.data)

/-- Claim C6 counterexample: `printf` is dispatched in a core-handled
position of `actionToCUE` WITHOUT an `isCoreFunc` guard, so under the
restrictive configuration `CoreFuncs = some []` (which excludes every
name) a `printf` action still converts successfully instead of raising
an unsupported-function error. -/
theorem c6_counterexample :
    isCoreFunc (initConv [] (some []) "") "printf" = false ∧
    ((actionToCUE (initConv [] (some []) "")
        ⟨[], [⟨[.ident "printf", .str "%s", .str "a"]⟩]⟩).toOption.map
      (fun t => t.1)) = some "\"\\(\"a\")\"" :=
  ⟨rfl, rfl⟩

/-- Claim C6 (amended): a nil `CoreFuncs` enables every name; when
`CoreFuncs` excludes a name, each GUARDED core-handled position — the
thirteen `gatedFirstNames` in first-command position and the three
`gatedPipeNames` in pipeline position — fails with the
unsupported-pipeline-function error, whose message contains the excluded
name.  (`printf` and `print` are dispatched unguarded, see the
counterexample.) -/
theorem c6_core_gating (st : ConvState) (name : String) (a1 : PArg)
    (more : List PArg) (decl : List String) (expr helmObj : String)
    (fieldPath : Option (List String)) (cargs : List PArg)
    (hgate : isCoreFunc st name = false) :
    (∀ (st2 : ConvState) (m : String), st2.coreFuncs = none →
      isCoreFunc st2 m = true) ∧
    (gatedFirstNames.contains name = true →
      actionToCUE st ⟨decl, [⟨.ident name :: a1 :: more⟩]⟩ =
        .error ("unsupported pipeline function: " ++ name ++
          " (not a text/template builtin)")) ∧
    (gatedPipeNames.contains name = true →
      pipelineStage st expr helmObj fieldPath ⟨.ident name :: cargs⟩ =
        .error ("unsupported pipeline function: " ++ name ++
          " (not a text/template builtin)")) ∧
    strContains ("unsupported pipeline function: " ++ name ++
      " (not a text/template builtin)") name = true := by
  refine ⟨?_, ?_, ?_, strContains_middle _ name _⟩
  · intro st2 m h2
    simp [isCoreFunc, h2]
  · intro hmem
    simp only [gatedFirstNames, List.contains_cons, List.contains_nil,
      Bool.or_eq_true, beq_iff_eq] at hmem
    rcases hmem with h | h | h | h | h | h | h | h | h | h | h | h | h | h <;>
      first
      | (subst h; simp [actionToCUE, actionFirstMulti, hgate])
      | simp at h
  · intro hmem
    simp only [gatedPipeNames, List.contains_cons, List.contains_nil,
      Bool.or_eq_true, beq_iff_eq] at hmem
    rcases hmem with h | h | h | h <;>
      first
      | (subst h; simp [pipelineStage, hgate])
      | simp at h

/-- Concrete instantiation of the amended C6 gating theorem. -/
theorem c6_witness :
    actionToCUE (initConv [] (some []) "")
        ⟨[], [⟨[.ident "default", .str "x", .str "y"]⟩]⟩ =
      .error ("unsupported pipeline function: " ++ "default" ++
        " (not a text/template builtin)") :=
  (c6_core_gating (initConv [] (some []) "") "default" (.str "x") [.str "y"]
    [] "" "" none [] rfl).2.1 (by decide)

/-! ## Claim C7 -/

/-- Claim C7 (confirmed): duplicate helper definitions across files.
With identical bodies the duplicate is silently deduplicated (no error,
no warning, one surviving definition); with differing bodies the parse
errors when duplicates are disallowed, and with duplicates allowed the
last definition wins and a warning naming the helper is recorded. -/
theorem c7_parseHelpers (n b b1 b2 : String) (allowDup : Bool)
    (hn0 : n ≠ helperFileName 0) (hn1 : n ≠ helperFileName 1)
    (hdiff : b1 ≠ b2) :
    parseHelpers [[(n, b)], [(n, b)]] allowDup =
      .ok ⟨[(helperFileName 0, ""), (n, b), (helperFileName 1, "")],
        [helperFileName 0, helperFileName 1], []⟩ ∧
    parseHelpers [[(n, b1)], [(n, b2)]] false =
      .error ("conflicting definitions for template \"" ++ n ++ "\"") ∧
    parseHelpers [[(n, b1)], [(n, b2)]] true =
      .ok ⟨[(helperFileName 0, ""), (n, b2), (helperFileName 1, "")],
        [helperFileName 0, helperFileName 1],
        ["warning: duplicate helper \"" ++ n ++ "\": using last definition"]⟩ := by
  have h01 : helperFileName 0 ≠ helperFileName 1 := by decide
  refine ⟨?_, ?_, ?_⟩
  · simp [parseHelpers, parseHelpersGo, parseInto, insertUnique, dupCheck,
      eraseKey, lookupAssoc, hn0, hn1, Ne.symm hn0, Ne.symm hn1, h01]
  · simp [parseHelpers, parseHelpersGo, parseInto, insertUnique, dupCheck,
      eraseKey, lookupAssoc, hn0, hn1, Ne.symm hn0, Ne.symm hn1, h01, hdiff]
  · simp [parseHelpers, parseHelpersGo, parseInto, insertUnique, dupCheck,
      eraseKey, lookupAssoc, hn0, hn1, Ne.symm hn0, Ne.symm hn1, h01, hdiff]

/-- Concrete instantiation of the C7 duplicate-helper theorem. -/
theorem c7_witness :
    parseHelpers [[("mytpl", "B")], [("mytpl", "B")]] true =
      .ok ⟨[(helperFileName 0, ""), ("mytpl", "B"), (helperFileName 1, "")],
        [helperFileName 0, helperFileName 1], []⟩ :=
  (c7_parseHelpers "mytpl" "B" "B1" "B2" true (by decide) (by decide)
    (by decide)).1

/-! ## Claim C9 -/

theorem lookupAssoc_append_single {α : Type} (ts : List (String × α))
    (k : String) (v : α) (name : String) (h : k ≠ name) :
    lookupAssoc (ts ++ [(k, v)]) name = lookupAssoc ts name := by
  induction ts with
  | nil => simp [lookupAssoc, List.find?, h]
  | cons p rest ih =>
      by_cases hpn : p.1 = name
      · simp [lookupAssoc, List.find?, hpn]
      · simpa [lookupAssoc, List.find?, hpn] using ih

theorem parsePartial_preserves : ∀ (defs : List (String × String))
    (ts : List (String × String)) (name : String),
    (∀ d ∈ defs, d.1 ≠ name) →
    lookupAssoc (parsePartial ts defs).2 name = lookupAssoc ts name := by
  intro defs
  induction defs with
  | nil => intro ts name _; rfl
  | cons d rest ih =>
      intro ts name hne
      obtain ⟨k, v⟩ := d
      rw [parsePartial]
      by_cases hk : (lookupAssoc ts k).isSome
      · rw [if_pos hk]
      · rw [if_neg hk]
        have hkname : k ≠ name := hne (k, v) (List.mem_cons_self _ _)
        rw [ih (ts ++ [(k, v)]) name
          (fun d hd => hne d (List.mem_cons_of_mem _ hd))]
        exact lookupAssoc_append_single ts k v name hkname

theorem find?_filter_ne (k name : String) (h : name ≠ k) :
    ∀ (ts : List (String × String)),
    (ts.filter (fun p => p.1 ≠ k)).find? (fun p => p.1 = name) =
      ts.find? (fun p => p.1 = name) := by
  intro ts
  induction ts with
  | nil => rfl
  | cons p rest ih =>
      rw [List.filter_cons]
      by_cases hpk : p.1 = k
      · have hpn : ¬ (p.1 = name) := fun he => h (he.symm.trans hpk)
        rw [if_neg (by simp [hpk]), ih,
          List.find?_cons_of_neg _ (by simp [hpn])]
      · rw [if_pos (by simp [hpk])]
        by_cases hpn : p.1 = name
        · rw [List.find?_cons_of_pos _ (by simp [hpn]),
            List.find?_cons_of_pos _ (by simp [hpn])]
        · rw [List.find?_cons_of_neg _ (by simp [hpn]),
            List.find?_cons_of_neg _ (by simp [hpn]), ih]

theorem eraseKey_preserves (ts : List (String × String)) (k name : String)
    (h : name ≠ k) : lookupAssoc (eraseKey ts k) name = lookupAssoc ts name := by
  rw [lookupAssoc, lookupAssoc, eraseKey, find?_filter_ne k name h ts]

theorem eraseKey_fresh (ts : List (String × String)) (k : String)
    (h : lookupAssoc ts k = none) : eraseKey ts k = ts := by
  rw [eraseKey, List.filter_eq_self]
  intro p hp
  have hfind : ts.find? (fun p => p.1 = k) = none := by
    rw [lookupAssoc] at h
    cases hf : ts.find? (fun p => p.1 = k) with
    | none => rfl
    | some q => rw [hf] at h; simp at h
  have := List.find?_eq_none.mp hfind p hp
  simpa using this

/-- Claim C9 counterexample: `convertStructured` does NOT consult the
shared tree set read-only — it parses the input template INTO the set,
and on an error path (here: the conversion phase failing) it returns
early without reaching the `delete(treeSet, templateName)` cleanup, so
the input template's main tree is left behind in the shared set. -/
theorem c9_counterexample :
    (convertStructuredTreeSet [("myhelper", "H")] "helm" [] "ROOT" false).2 =
      [("myhelper", "H"), ("helm", "ROOT")] ∧
    (convertStructuredTreeSet [("myhelper", "H")] "helm" [] "ROOT" false).2 ≠
      [("myhelper", "H")] := by
  decide

/-- Claim C9 (amended): the tree-set mutation of `convertStructured` is
confined to the input template's own names — every name other than the
template name and its define-block names maps to the same tree before
and after the call, whatever the outcome; and on the fully successful
path (fresh template name, no define blocks, conversion succeeds) the
tree set is restored exactly. -/
theorem c9_treeSet (ts : List (String × String)) (templateName : String)
    (inputDefines : List (String × String)) (rootBody : String)
    (convertOk : Bool) (name : String)
    (hname : name ≠ templateName) (hdef : ∀ d ∈ inputDefines, d.1 ≠ name)
    (hfresh : lookupAssoc ts templateName = none) :
    lookupAssoc (convertStructuredTreeSet ts templateName inputDefines rootBody
      convertOk).2 name = lookupAssoc ts name ∧
    (inputDefines = [] → convertOk = true →
      (convertStructuredTreeSet ts templateName [] rootBody convertOk).2 = ts) := by
  constructor
  · rw [convertStructuredTreeSet]
    have hall : ∀ d ∈ inputDefines ++ [(templateName, rootBody)], d.1 ≠ name := by
      intro d hd
      rcases List.mem_append.mp hd with h | h
      · exact hdef d h
      · rcases List.mem_singleton.mp h with rfl
        exact fun he => hname he.symm
    have hpp := parsePartial_preserves (inputDefines ++ [(templateName, rootBody)])
      ts name hall
    cases hsplit : parsePartial ts (inputDefines ++ [(templateName, rootBody)]) with
    | mk err ts1 =>
        rw [hsplit] at hpp
        cases err with
        | some e => simpa using hpp
        | none =>
            cases convertOk with
            | false => simpa using hpp
            | true =>
                simp only [if_true]
                rw [eraseKey_preserves ts1 templateName name hname]
                simpa using hpp
  · intro hdefs hok
    subst hdefs
    subst hok
    rw [convertStructuredTreeSet]
    simp only [List.nil_append]
    rw [parsePartial, if_neg (by rw [hfresh]; simp)]
    rw [parsePartial]
    simp only []
    rw [eraseKey, List.filter_append]
    have h1 : eraseKey ts templateName = ts := eraseKey_fresh ts templateName hfresh
    rw [eraseKey] at h1
    rw [h1]
    simp

/-- Concrete instantiation of the amended C9 frame theorem. -/
theorem c9_witness :
    lookupAssoc (convertStructuredTreeSet [("myhelper", "H")] "helm" [] "ROOT"
      true).2 "myhelper" = lookupAssoc [("myhelper", "H")] "myhelper" ∧
    (convertStructuredTreeSet [("myhelper", "H")] "helm" [] "ROOT" true).2 =
      [("myhelper", "H")] :=
  ⟨(c9_treeSet [("myhelper", "H")] "helm" [] "ROOT" true "myhelper"
      (by decide) (by intro d hd; simp at hd) (by decide)).1,
   (c9_treeSet [("myhelper", "H")] "helm" [] "ROOT" true "myhelper"
      (by decide) (by intro d hd; simp at hd) (by decide)).2 rfl rfl⟩

/-! ## Claim C1 -/

/-- Claim C1 counterexample: the emitted values-schema entry for a leaf
with a default does NOT parenthesise the scalar type disjunction — the
source writes `port: *8080 | bool | number | string | null`, not
`port: *8080 | (bool | number | string | null)` as the spec's expected
output shows. -/
theorem c1_counterexample :
    emitFieldNodesGo (buildFieldTree [["port"]] [(["port"], "8080")]
        [["port"]] []).children 1 ≠
      "\tport: *8080 | (bool | number | string | null)\n" := by
  decide

/-- Claim C1 (amended): `default` on a context-object field emits the
field's CUE expression and records `(object, path, literal)` in the
defaults bag — both as a pipeline stage and as a first command; for the
input `port: {{ .Values.port | default 8080 }}` the emitted body is
`port: #values.port` (for every external-collaborator instantiation)
and the whole action converts to the expression `#values.port` on object
`Values` recording the default `8080`; the resulting values-schema entry
is `port: *8080 | bool | number | string | null` (no parentheses around
the scalar disjunction). -/
theorem c1_default (st : ConvState) (expr helmObj : String)
    (fp : List String) (v : PArg) (lit : String) (i0 : String)
    (rest : List String) (m : String)
    (hco : isCoreFunc st "default" = true)
    (hlit : nodeToCUELiteral v = .ok lit)
    (hobj : helmObj ≠ "")
    (hm : lookupAssoc st.contextObjects i0 = some m)
    (hi0 : i0 ≠ "") :
    (pipelineStage st expr helmObj (some fp) ⟨[.ident "default", v]⟩ =
      .ok (expr, { st with defaults := st.defaults ++ [(helmObj, fp, lit)] })) ∧
    (actionFirstMulti st "default" [.ident "default", v, .field (i0 :: rest)] =
      .ok ⟨String.intercalate "." (m :: rest), i0, some rest, "",
        { trackFieldRef st i0 rest with
            defaults := (trackFieldRef st i0 rest).defaults ++
              [(i0, rest, lit)] }⟩) ∧
    (∀ E : ExtFns,
      (finalizeEmitter E (emitActionExpr
        (emitTextNode E { initEmitter with nextNodeIsInline := true } "port: ")
        "#values.port" "")).out = "port: #values.port\n") ∧
    ((actionToCUE (initConv [("Values", "#values")] none "")
        ⟨[], [⟨[.field ["Values", "port"]]⟩,
          ⟨[.ident "default", .num "8080" 8080]⟩]⟩).toOption.map
      (fun t => (t.1, t.2.1, t.2.2.defaults)) =
      some ("#values.port", "Values", [("Values", ["port"], "8080")])) ∧
    (emitFieldNodesGo (buildFieldTree [["port"]] [(["port"], "8080")]
        [["port"]] []).children 1 =
      "\tport: *8080 | bool | number | string | null\n") := by
  refine ⟨?_, ?_, ?_, by rfl, by decide⟩
  · simp [pipelineStage, hco, literalOrExpr, hlit, hobj]
  · simp [actionFirstMulti, hco, literalOrExpr, hlit, fieldToCUE, hm, hi0]
  · intro E
    rw [finalizeEmitter, emitTextNode, emitTextNodeList, emitTextNodeFlow]
    simp +decide [emitTextNodeLines, processLines, processLine, classifyLine,
      keyValueBranch, emitActionExpr, flushPendingAction, flushDeferred,
      finalizeInline, finalizeFlow, closeBlocksTo, closeStack, splitLines,
      trimSpaceList, countLeadingSpaces, indexOfColonSpace, trimRightList,
      listStartsWith, isFlowCollection, startsIncompleteFlow, currentCUEIndent,
      initEmitter, cueKey, identReMatch, isIdentStart, isIdentRest,
      writeIndent, isSpaceChar, inlineExpr]

/-- Concrete instantiation of the amended C1 default theorem. -/
theorem c1_witness :
    pipelineStage (initConv [("Values", "#values")] none "") "#values.port"
        "Values" (some ["port"]) ⟨[.ident "default", .num "8080" 8080]⟩ =
      .ok ("#values.port", { initConv [("Values", "#values")] none "" with
        defaults := (initConv [("Values", "#values")] none "").defaults ++
          [("Values", ["port"], "8080")] }) :=
  (c1_default (initConv [("Values", "#values")] none "") "#values.port"
    "Values" ["port"] (.num "8080" 8080) "8080" "Values" ["port"] "#values"
    rfl rfl (by decide) rfl (by decide)).1

end Helm2Cue